import Mathlib

/-!
Shallow embedding of the audio alignment core of the analyzer app
(`apps/analyzer/app/audio_sync.py` and `apps/analyzer/app/beats.py`).

Python floats are modelled as exact rationals (`ℚ`), Python ints as `ℤ`,
lists as `List`.  `math.sqrt` has no exact rational counterpart, so every
definition that needs it is parametrised by an abstract square-root
function `sqrtQ : ℚ → ℚ` carried in a `FloatEnv`; all theorems below are
proved for every such function.  The numpy FFT branch of the
vocal-emphasis extractor (transcendental arithmetic) is likewise carried
as an abstract `spectralFeature` field together with an `npAvailable`
flag modelling whether `numpy` imported successfully; the precondition
checks guarding that branch are embedded exactly.
-/

/-- Python `int(q)` on an exact value: truncation toward zero. -/
def pyInt (q : ℚ) : ℤ :=
  if 0 ≤ q then ⌊q⌋ else -⌊-q⌋

/-- Python `round(q)` on an exact value: round half to even. -/
def pyRound (q : ℚ) : ℤ :=
  let f := ⌊q⌋
  let r := q - (f : ℚ)
  if r < 1/2 then f
  else if 1/2 < r then f + 1
  else if f % 2 = 0 then f else f + 1

/-- The literal `1e-9` used as a degeneracy threshold throughout the code. -/
def epsQ : ℚ := 1 / 1000000000

/-- Python `range(lo, hi + 1)` over integers (both bounds as in the sources,
where the code writes `range(min_lag, max_lag + 1)`). -/
def intRange (lo hi : ℤ) : List ℤ :=
  (List.range (hi + 1 - lo).toNat).map (fun k => lo + (k : ℤ))

/-- Python `range(0, n, b)` for a positive step `b`. -/
def bucketStarts (n b : ℕ) : List ℕ :=
  (List.range ((n + b - 1) / b)).map (fun i => i * b)

/-- Rationals are always finite, which models `math.isfinite` on the exact
values flowing through `_merge_candidate_lags`. -/
def qIsFinite (_q : ℚ) : Bool := true

/-- Abstract float-environment: the square root of `math.sqrt`, whether
`numpy` is importable, and the numpy spectral branch of
`_vocal_emphasis_envelope_downsample` past its precondition checks
(arguments: signal, sample rate, target rate). -/
structure FloatEnv where
  sqrtQ : ℚ → ℚ
  npAvailable : Bool
  spectralFeature : List ℚ → ℤ → ℤ → List ℚ × ℤ

/-- A candidate lag dictionary.  Fields that a given code path does not set
are modelled by the defaults used by the corresponding `.get(...)` calls
(`injected` defaults to `False`, the scores to `0.0`). -/
structure Candidate where
  lag_seconds : ℚ
  score : ℚ
  score_ratio : ℚ := 0
  overlap_samples : ℕ := 0
  amp_score : ℚ := 0
  vocal_score : ℚ := 0
  coarse_lag_seconds : ℚ := 0
  injected : Bool := false
deriving DecidableEq, Repr

/-- Mean of a list (`sum(xs) / len(xs)` in the sources). -/
def meanQ (l : List ℚ) : ℚ := l.sum / (l.length : ℚ)

/-- Embedding of `_normalize` (audio_sync.py lines 15-23). -/
def normalizeQ (env : FloatEnv) (signal : List ℚ) : List ℚ :=
  if signal = [] then signal
  else
    let meanValue := meanQ signal
    let centered := signal.map (fun sample => sample - meanValue)
    let energy := env.sqrtQ ((centered.map (fun sample => sample * sample)).sum)
    if energy ≤ epsQ then centered
    else centered.map (fun sample => sample / energy)

/-- Embedding of `_slice_overlap` (audio_sync.py lines 26-51). -/
def sliceOverlap (reference candidate : List ℚ) (lag : ℤ) :
    List ℚ × List ℚ :=
  if 0 ≤ lag then
    let candStart := lag.toNat
    if candidate.length ≤ candStart then ([], [])
    else
      let length := min (reference.length : ℤ) ((candidate.length : ℤ) - candStart)
      if length ≤ 0 then ([], [])
      else (reference.take length.toNat, (candidate.drop candStart).take length.toNat)
  else
    let refStart := (-lag).toNat
    if reference.length ≤ refStart then ([], [])
    else
      let length := min ((reference.length : ℤ) - refStart) (candidate.length : ℤ)
      if length ≤ 0 then ([], [])
      else ((reference.drop refStart).take length.toNat, candidate.take length.toNat)

/-- Embedding of `_local_ncc_score` (audio_sync.py lines 54-83).  The
index loop accumulating numerator and energies is modelled by a fold over
`List.range length` with `getD` indexing, mirroring the Python indexing. -/
def localNccScore (env : FloatEnv) (reference candidate : List ℚ)
    (lag sampleRate : ℤ) : Option ℚ × ℕ :=
  let slices := sliceOverlap reference candidate lag
  let refSlice := slices.1
  let candSlice := slices.2
  let length := refSlice.length
  if (length : ℤ) < max 4 (Int.fdiv sampleRate 5) then (none, length)
  else
    let refMean := refSlice.sum / (length : ℚ)
    let candMean := candSlice.sum / (length : ℚ)
    let acc := (List.range length).foldl
      (fun (acc : ℚ × ℚ × ℚ) index =>
        let refValue := refSlice.getD index 0 - refMean
        let candValue := candSlice.getD index 0 - candMean
        (acc.1 + refValue * candValue,
         acc.2.1 + refValue * refValue,
         acc.2.2 + candValue * candValue))
      (0, 0, 0)
    let denominator := env.sqrtQ (acc.2.1 * acc.2.2)
    if denominator ≤ epsQ then (some 0, length)
    else (some (acc.1 / denominator), length)

/-- Core of `_envelope_downsample` (audio_sync.py lines 112-135) after its
`sample_rate <= 0` guard; total on any input. -/
def envelopeCore (signal : List ℚ) (sampleRate targetRate : ℤ) :
    List ℚ × ℤ :=
  if signal = [] then ([], sampleRate)
  else
    let bucketSize := max 1 (Int.fdiv sampleRate (max 1 targetRate))
    if bucketSize = 1 then (signal, sampleRate)
    else
      let b := bucketSize.toNat
      let buckets := (bucketStarts signal.length b).filterMap (fun start =>
        let chunk := (signal.drop start).take b
        if chunk = [] then none
        else some ((chunk.map (fun sample => |sample|)).sum / (chunk.length : ℚ)))
      (buckets, max 1 (Int.fdiv sampleRate bucketSize))

/-- Embedding of `_envelope_downsample` including its raising
`sample_rate <= 0` check. -/
def envelopeDownsample (signal : List ℚ) (sampleRate targetRate : ℤ) :
    Except String (List ℚ × ℤ) :=
  if sampleRate ≤ 0 then .error "sample_rate must be positive"
  else .ok (envelopeCore signal sampleRate targetRate)

/-- The high band cutoff `min(1800.0, sample_rate / 2.0 - 1.0)` of
`_vocal_emphasis_envelope_downsample`. -/
def highCut (sampleRate : ℤ) : ℚ := min 1800 ((sampleRate : ℚ) / 2 - 1)

/-- Whether the band mask `(freqs >= 180.0) & (freqs <= high_cut)` has any
true entry, with `freqs = numpy.fft.rfftfreq(n, 1/sample_rate)`, i.e.
frequency `k * sample_rate / n` for `k = 0 .. n / 2`. -/
def bandMaskAny (n : ℕ) (sampleRate : ℤ) : Bool :=
  (List.range (n / 2 + 1)).any (fun k =>
    decide (180 ≤ (k : ℚ) * (sampleRate : ℚ) / (n : ℚ)) &&
    decide ((k : ℚ) * (sampleRate : ℚ) / (n : ℚ) ≤ highCut sampleRate))

/-- Core of `_vocal_emphasis_envelope_downsample` (audio_sync.py lines
145-208) under the precondition `sample_rate > 0`: the precondition
checks are embedded literally, the numpy branch past them is the abstract
`spectralFeature` field of the environment. -/
def vocalCore (env : FloatEnv) (signal : List ℚ) (sampleRate targetRate : ℤ) :
    List ℚ × ℤ :=
  if env.npAvailable = false then envelopeCore signal sampleRate targetRate
  else if signal = [] then ([], sampleRate)
  else if signal.length < 8 then envelopeCore signal sampleRate targetRate
  else if highCut sampleRate ≤ 200 then envelopeCore signal sampleRate targetRate
  else if bandMaskAny signal.length sampleRate = false then
    envelopeCore signal sampleRate targetRate
  else env.spectralFeature signal sampleRate targetRate

/-- Embedding of `_vocal_emphasis_envelope_downsample` including the raising
`sample_rate <= 0` check (reached through `_envelope_downsample` when numpy
is unavailable, directly otherwise). -/
def vocalEmphasisEnvelopeDownsample (env : FloatEnv) (signal : List ℚ)
    (sampleRate targetRate : ℤ) : Except String (List ℚ × ℤ) :=
  if env.npAvailable = false then envelopeDownsample signal sampleRate targetRate
  else if sampleRate ≤ 0 then .error "sample_rate must be positive"
  else .ok (vocalCore env signal sampleRate targetRate)

/-- Stable insertion of `x` into a list already sorted by descending key:
`x` goes before the first element whose key does not exceed it.  A stable
sort is unique as a function, so insertion sort is a faithful model of
Python's stable `list.sort(key=..., reverse=True)`. -/
def insertDesc {α : Type} (key : α → ℚ) (x : α) : List α → List α
  | [] => [x]
  | y :: ys => if key y ≤ key x then x :: y :: ys else y :: insertDesc key x ys

/-- Stable sort by descending key, modelling
`list.sort(key=..., reverse=True)`. -/
def sortByKeyDesc {α : Type} (key : α → ℚ) : List α → List α
  | [] => []
  | x :: xs => insertDesc key x (sortByKeyDesc key xs)

/-- The greedy accept loop shared (with different closeness predicates and
caps) by `_top_correlation_lags` and the two deduplication passes of
`estimate_sync_candidates`: walk the score-sorted list, skip an item that
is too close to an already accepted one, and stop as soon as `cap` items
are accepted. -/
def greedyPick {α : Type} (close : α → α → Bool) (cap : ℤ) :
    List α → List α → List α
  | acc, [] => acc
  | acc, x :: rest =>
    if acc.any (close x) then greedyPick close cap acc rest
    else
      let acc2 := acc ++ [x]
      if cap ≤ (acc2.length : ℤ) then acc2 else greedyPick close cap acc2 rest

/-- Python `max(...)` over the scores of a non-empty candidate list (the
call sites guard emptiness and use `0.0` then). -/
def maxScore : List Candidate → ℚ
  | [] => 0
  | c :: cs => cs.foldl (fun m it => max m it.score) c.score

/-- Maximum of the score components of a non-empty lag/score/overlap list,
modelling `max(item[1] for item in picked)`. -/
def maxSnd : List (ℤ × ℚ × ℕ) → ℚ
  | [] => 0
  | t :: ts => ts.foldl (fun m it => max m it.2.1) t.2.1

/-- Embedding of `_top_correlation_lags` (audio_sync.py lines 246-304). -/
def topCorrelationLags (normalizedReference normalizedCandidate : List ℚ)
    (sampleRate minLagSamples maxLagSamples limit minPeakDistanceSamples : ℤ) :
    List Candidate :=
  let scores := (intRange minLagSamples maxLagSamples).filterMap (fun lag =>
    let slices := sliceOverlap normalizedReference normalizedCandidate lag
    if slices.1 = [] ∨ slices.2 = [] then none
    else
      let length := min slices.1.length slices.2.length
      if (length : ℤ) < max 4 (Int.fdiv sampleRate 5) then none
      else
        let score := (List.range length).foldl
          (fun s index => s + slices.1.getD index 0 * slices.2.getD index 0) 0
        some (lag, score, length))
  if scores = [] then []
  else
    let sorted := sortByKeyDesc (fun t => t.2.1) scores
    let picked := greedyPick
      (fun t e => decide (|t.1 - e.1| < minPeakDistanceSamples)) limit [] sorted
    let bestScore := maxSnd picked
    picked.map (fun t =>
      { lag_seconds := (t.1 : ℚ) / (sampleRate : ℚ)
        score := t.2.1
        score_ratio := if |bestScore| ≤ epsQ then 0 else t.2.1 / bestScore
        overlap_samples := t.2.2 })

/-- Embedding of `_merge_candidate_lags` (audio_sync.py lines 307-333) at
its default tolerance 0.35 s; the `sample_rate` stored in the injected
dictionary is never read back and is not modelled. -/
def mergeCandidateLags (candidates : List Candidate)
    (extraLagsSeconds : List ℚ) : List Candidate :=
  extraLagsSeconds.foldl (fun merged lagSeconds =>
    if qIsFinite lagSeconds = false then merged
    else if merged.any (fun item => decide (|item.lag_seconds - lagSeconds| < 7/20)) then
      merged
    else
      merged ++ [{ lag_seconds := lagSeconds, score := 0, score_ratio := 0
                   overlap_samples := 0, injected := true }]) candidates

/-- Embedding of `_combine_feature_scores` (audio_sync.py lines 336-372). -/
def combineFeatureScores (env : FloatEnv) (lag sampleRate : ℤ)
    (fineReferenceAmp fineCandidateAmp fineReferenceVocal fineCandidateVocal :
      List ℚ) : Option Candidate :=
  let amp := localNccScore env fineReferenceAmp fineCandidateAmp lag sampleRate
  let vocal := localNccScore env fineReferenceVocal fineCandidateVocal lag sampleRate
  match amp.1, vocal.1 with
  | none, none => none
  | ampScore, vocalScore =>
    let ampScoreValue := ampScore.getD 0
    let vocalScoreValue := vocalScore.getD 0
    some
      { lag_seconds := (lag : ℚ) / (sampleRate : ℚ)
        score := 9/20 * ampScoreValue + 11/20 * vocalScoreValue
        amp_score := ampScoreValue
        vocal_score := vocalScoreValue
        overlap_samples := max amp.2 vocal.2 }

/-- The end anchor lag of `estimate_sync_candidates` (lines 433-437):
`(len(candidate) - len(reference)) / sample_rate` when the candidate
track is strictly longer than the reference, `0.0` otherwise. -/
def endAnchorSeconds (reference candidate : List ℚ) (sampleRate : ℤ) : ℚ :=
  if reference.length < candidate.length then
    ((candidate.length : ℚ) - (reference.length : ℚ)) / (sampleRate : ℚ)
  else 0

/-- Coarse stage of `estimate_sync_candidates` (lines 383-442) up to and
including the `_merge_candidate_lags` call: parameter checks, the 24 Hz
amplitude and vocal envelopes, the two coarse peak pools, and the merge
with the end anchor lag. -/
def mergedCoarse (env : FloatEnv) (reference candidate : List ℚ)
    (sampleRate : ℤ) (maxShiftSeconds : ℚ) (limit : ℤ) :
    Except String (List Candidate) :=
  if sampleRate ≤ 0 then .error "sample_rate must be positive"
  else
    let refAmp := envelopeCore reference sampleRate 24
    let candAmp := envelopeCore candidate sampleRate 24
    if refAmp.2 ≠ candAmp.2 then .error "Coarse sample rates must match"
    else
      let refVocal := vocalCore env reference sampleRate 24
      let candVocal := vocalCore env candidate sampleRate 24
      if refVocal.2 ≠ candVocal.2 then .error "Coarse vocal sample rates must match"
      else
        let coarseRate := refAmp.2
        let coarseMaxShift := pyInt (maxShiftSeconds * (coarseRate : ℚ))
        let poolLimit := max 3 (limit + 2)
        let peakDist := max 1 (pyInt (3/4 * (coarseRate : ℚ)))
        let ampPool := topCorrelationLags
          (normalizeQ env refAmp.1) (normalizeQ env candAmp.1)
          coarseRate (-coarseMaxShift) coarseMaxShift poolLimit peakDist
        let vocalPool := topCorrelationLags
          (normalizeQ env refVocal.1) (normalizeQ env candVocal.1)
          refVocal.2 (-coarseMaxShift) coarseMaxShift poolLimit peakDist
        .ok (mergeCandidateLags (ampPool ++ vocalPool)
          [endAnchorSeconds reference candidate sampleRate])

/-- Sort/deduplicate/re-inject pass over the merged coarse pool
(audio_sync.py lines 443-466). -/
def coarseDedup (limit : ℤ) (merged : List Candidate) : List Candidate :=
  let sorted := sortByKeyDesc (fun item => item.score) merged
  let injectedItems := sorted.filter (fun item => item.injected)
  let deduped := greedyPick
    (fun item existing => decide (|item.lag_seconds - existing.lag_seconds| < 3/4))
    (max 5 (limit * 2)) [] sorted
  injectedItems.foldl (fun acc injectedItem =>
    if acc.any (fun existing =>
        decide (|injectedItem.lag_seconds - existing.lag_seconds| < 3/4)) then acc
    else acc ++ [injectedItem]) deduped

/-- Fine stage of `estimate_sync_candidates` (lines 468-547): 90 Hz
envelopes, rate consistency checks, and the per-coarse-candidate
refinement loop producing the `refined` list. -/
def refineStage (env : FloatEnv) (reference candidate : List ℚ)
    (sampleRate : ℤ) (maxShiftSeconds : ℚ) (coarsePool : List Candidate) :
    Except String (List Candidate) :=
  let refAmp := envelopeCore reference sampleRate 90
  let candAmp := envelopeCore candidate sampleRate 90
  if refAmp.2 ≠ candAmp.2 then .error "Fine sample rates must match"
  else
    let refVocal := vocalCore env reference sampleRate 90
    let candVocal := vocalCore env candidate sampleRate 90
    if refVocal.2 ≠ candVocal.2 then .error "Fine vocal sample rates must match"
    else
      let fineRate := refAmp.2
      let nra := normalizeQ env refAmp.1
      let nca := normalizeQ env candAmp.1
      let nrv := normalizeQ env refVocal.1
      let ncv := normalizeQ env candVocal.1
      let fineMaxShift := pyInt (maxShiftSeconds * (fineRate : ℚ))
      let refineWindow := max fineRate (pyInt ((fineRate : ℚ) * 3/5))
      .ok (coarsePool.foldl (fun refined coarseItem =>
        let coarseLagSeconds := coarseItem.lag_seconds
        let fineCenterLag := pyRound (coarseLagSeconds * (fineRate : ℚ))
        let minLag := max (-fineMaxShift) (fineCenterLag - refineWindow)
        let maxLag := min fineMaxShift (fineCenterLag + refineWindow)
        let ampPeaks := topCorrelationLags nra nca fineRate minLag maxLag 1
          (max 1 (pyInt (1/5 * (fineRate : ℚ))))
        let vocalPeaks := topCorrelationLags nrv ncv fineRate minLag maxLag 1
          (max 1 (pyInt (1/5 * (fineRate : ℚ))))
        let candidateLags := (ampPeaks ++ vocalPeaks).foldl
          (fun lags item =>
            let v := pyRound (item.lag_seconds * (fineRate : ℚ))
            if v ∈ lags then lags else lags ++ [v])
          [fineCenterLag]
        refined ++ candidateLags.filterMap (fun lag =>
          if lag < minLag ∨ maxLag < lag then none
          else
            match combineFeatureScores env lag fineRate refAmp.1 candAmp.1
              refVocal.1 candVocal.1 with
            | none => none
            | some combined =>
              some { combined with
                       coarse_lag_seconds := coarseLagSeconds
                       injected := coarseItem.injected })) [])

/-- The best-scoring refined candidate within 2.5 s of the end anchor
(audio_sync.py lines 565-571); ties keep the earliest, matching the
strict `>` comparison of the loop. -/
def pickEndAnchorChoice (anchor : ℚ) (refined : List Candidate) :
    Option Candidate :=
  refined.foldl (fun choice item =>
    if |item.lag_seconds - anchor| ≤ 5/2 then
      match choice with
      | none => some item
      | some c => if c.score < item.score then some item else some c
    else choice) none

/-- Final ranking stage of `estimate_sync_candidates` (lines 552-589) on a
non-empty `refined` list: sort by descending score, greedy 0.35 s
deduplication capped at `limit`, optional end-anchor splice, and the
`score_ratio` assignment against the best kept score. -/
def finalRanking (anchor : ℚ) (limit : ℤ) (refined : List Candidate) :
    List Candidate :=
  let sortedRefined := sortByKeyDesc (fun item => item.score) refined
  let deduped := greedyPick
    (fun item existing => decide (|item.lag_seconds - existing.lag_seconds| < 7/20))
    limit [] sortedRefined
  let deduped2 :=
    if 0 < anchor then
      match pickEndAnchorChoice anchor sortedRefined with
      | none => deduped
      | some choice =>
        if deduped.any (fun item =>
            decide (|item.lag_seconds - choice.lag_seconds| < 7/20)) then deduped
        else
          sortByKeyDesc (fun item => item.score)
            (if limit ≤ (deduped.length : ℤ) ∧ deduped ≠ [] then
               deduped.dropLast ++ [choice]
             else deduped ++ [choice])
    else deduped
  let bestScore := maxScore deduped2
  deduped2.map (fun item =>
    { item with score_ratio :=
        if |bestScore| ≤ epsQ then 0 else item.score / bestScore })

/-- Embedding of `estimate_sync_candidates` (audio_sync.py lines 375-589)
as the composition of its coarse, dedup, refine and final stages. -/
def estimateSyncCandidates (env : FloatEnv) (reference candidate : List ℚ)
    (sampleRate : ℤ) (maxShiftSeconds : ℚ) (limit : ℤ) :
    Except String (List Candidate) := do
  let merged ← mergedCoarse env reference candidate sampleRate maxShiftSeconds limit
  let coarsePool := coarseDedup limit merged
  let refined ← refineStage env reference candidate sampleRate maxShiftSeconds
    coarsePool
  if refined = [] then return []
  return finalRanking (endAnchorSeconds reference candidate sampleRate) limit refined

/-- Embedding of `estimate_sync_offset` (audio_sync.py lines 592-608). -/
def estimateSyncOffset (env : FloatEnv) (reference candidate : List ℚ)
    (sampleRate : ℤ) (maxShiftSeconds : ℚ) : Except String ℚ :=
  match estimateSyncCandidates env reference candidate sampleRate
    maxShiftSeconds 1 with
  | .error e => .error e
  | .ok [] => .ok 0
  | .ok (c :: _) => .ok c.lag_seconds

/-- Embedding of `_moving_average` (beats.py lines 8-19): trailing window
average with a running sum, the window shrinking near the start. -/
def movingAverage (values : List ℚ) (window : ℤ) : List ℚ :=
  if window ≤ 1 ∨ values = [] then values
  else
    (values.enum.foldl (fun (st : ℚ × List ℚ) (p : ℕ × ℚ) =>
      let index : ℕ := p.1
      let running0 := st.1 + p.2
      let running :=
        if window ≤ (index : ℤ) then running0 - values.getD (index - window.toNat) 0
        else running0
      let count := min window.toNat (index + 1)
      (running, st.2 ++ [running / (count : ℚ)])) (0, [])).2

/-- The marker scan loop of `detect_beat_markers` (beats.py lines 51-68):
state is the collected markers plus the index of the last accepted peak,
iterated over the interior flux indices; collecting `max_markers` markers
returns early, modelling the `break`. -/
def beatScan (flux localFloor : List ℚ) (envelopeRate minSpacingSamples
    maxMarkers : ℤ) (thresholdFloor : ℚ) :
    List ℕ → List ℚ × ℤ → List ℚ × ℤ
  | [], st => st
  | index :: rest, (markers, lastPick) =>
    let value := flux.getD index 0
    let dynamicThreshold := max thresholdFloor (localFloor.getD index 0 * 27/20)
    if value < dynamicThreshold then
      beatScan flux localFloor envelopeRate minSpacingSamples maxMarkers
        thresholdFloor rest (markers, lastPick)
    else if value < flux.getD (index - 1) 0 ∨ value < flux.getD (index + 1) 0 then
      beatScan flux localFloor envelopeRate minSpacingSamples maxMarkers
        thresholdFloor rest (markers, lastPick)
    else if (index : ℤ) - lastPick < minSpacingSamples then
      if markers ≠ [] ∧ flux.getD lastPick.toNat 0 < value then
        beatScan flux localFloor envelopeRate minSpacingSamples maxMarkers
          thresholdFloor rest
          (markers.dropLast ++ [(index : ℚ) / (envelopeRate : ℚ)], index)
      else
        beatScan flux localFloor envelopeRate minSpacingSamples maxMarkers
          thresholdFloor rest (markers, lastPick)
    else
      let m2 := markers ++ [(index : ℚ) / (envelopeRate : ℚ)]
      if maxMarkers ≤ (m2.length : ℤ) then (m2, index)
      else
        beatScan flux localFloor envelopeRate minSpacingSamples maxMarkers
          thresholdFloor rest (m2, index)

/-- Python `max(xs)` over a non-empty rational list (call sites guard
emptiness). -/
def qListMax : List ℚ → ℚ
  | [] => 0
  | x :: xs => xs.foldl max x

/-- The interior index range `range(1, len(flux) - 1)` of the scan loop. -/
def interiorIndices (n : ℕ) : List ℕ :=
  (List.range (n - 2)).map (fun i => i + 1)

/-- Embedding of `detect_beat_markers` (beats.py lines 22-70). -/
def detectBeatMarkers (signal : List ℚ) (sampleRate targetRate : ℤ)
    (minSpacingSeconds : ℚ) (maxMarkers : ℤ) : List ℚ :=
  if sampleRate ≤ 0 ∨ signal = [] then []
  else
    let env := envelopeCore signal sampleRate targetRate
    let envelope := env.1
    let envelopeRate := env.2
    if envelope = [] ∨ envelopeRate ≤ 0 then []
    else
      let fast := movingAverage envelope (max 1 (pyInt (1/20 * (envelopeRate : ℚ))))
      let slow := movingAverage envelope (max 1 (pyInt (7/20 * (envelopeRate : ℚ))))
      let flux := (List.range envelope.length).map (fun index =>
        max 0 (fast.getD index 0 - slow.getD index 0))
      if flux = [] then []
      else
        let localFloor := movingAverage flux
          (max 1 (pyInt (3/5 * (envelopeRate : ℚ))))
        let minSpacingSamples := max 1 (pyInt (minSpacingSeconds * (envelopeRate : ℚ)))
        let thresholdFloor := if flux ≠ [] then qListMax flux * 3/25 else 0
        (beatScan flux localFloor envelopeRate minSpacingSamples maxMarkers
          thresholdFloor (interiorIndices flux.length)
          ([], -minSpacingSamples)).1

/-! General helper lemmas. -/

theorem filterMap_eq_map_of_some {α β : Type} (f : α → Option β) (g : α → β) :
    ∀ l : List α, (∀ a ∈ l, f a = some (g a)) → l.filterMap f = l.map g := by
  intro l
  induction l with
  | nil => intro _; rfl
  | cons x xs ih =>
    intro h
    rw [List.filterMap_cons, h x (List.mem_cons_self x xs), List.map_cons,
      ih (fun a ha => h a (List.mem_cons_of_mem x ha))]

theorem bucketStarts_length (n b : ℕ) :
    (bucketStarts n b).length = (n + b - 1) / b := by
  simp [bucketStarts]

theorem bucketStarts_mem_lt (n b : ℕ) (hb : 0 < b) :
    ∀ s ∈ bucketStarts n b, s < n := by
  intro s hs
  simp only [bucketStarts, List.mem_map, List.mem_range] at hs
  obtain ⟨i, hi, rfl⟩ := hs
  have h2 : (i + 1) * b ≤ n + b - 1 := (Nat.le_div_iff_mul_le hb).mp hi
  rw [Nat.succ_mul] at h2
  omega

/-- Claim C5: the Envelope Downsampler computes
`bucket_size = max(1, floor(sample_rate / max(1, target_rate)))`; when the
bucket size is 1 the input is returned unchanged at the original rate;
otherwise a non-empty signal yields `ceil(n / bucket_size)` buckets, the
i-th being the mean of absolute sample values over source indices
`[i*bucket_size, min((i+1)*bucket_size, n))`, at rate
`max(1, floor(sample_rate / bucket_size))`; `sample_rate <= 0` fails with
the InvalidParameter error. -/
theorem claim_C5_theorem (signal : List ℚ) (sampleRate targetRate : ℤ) :
    (sampleRate ≤ 0 →
      envelopeDownsample signal sampleRate targetRate =
        .error "sample_rate must be positive") ∧
    (0 < sampleRate →
      (max 1 (Int.fdiv sampleRate (max 1 targetRate)) = 1 →
        envelopeDownsample signal sampleRate targetRate = .ok (signal, sampleRate)) ∧
      (∀ b : ℤ, b = max 1 (Int.fdiv sampleRate (max 1 targetRate)) → b ≠ 1 →
        signal ≠ [] →
        ∃ buckets : List ℚ,
          envelopeDownsample signal sampleRate targetRate =
            .ok (buckets, max 1 (Int.fdiv sampleRate b)) ∧
          buckets.length = (signal.length + b.toNat - 1) / b.toNat ∧
          ∀ (i : ℕ) (h : i < buckets.length),
            buckets.get ⟨i, h⟩ =
              meanQ (((signal.drop (i * b.toNat)).take b.toNat).map
                (fun s => |s|)))) := by
  constructor
  · intro h
    rw [envelopeDownsample, if_pos h]
  · intro hpos
    have hns : ¬ sampleRate ≤ 0 := not_le.mpr hpos
    constructor
    · intro hb1
      by_cases hsig : signal = []
      · subst hsig
        simp [envelopeDownsample, hns, envelopeCore]
      · simp [envelopeDownsample, hns, envelopeCore, hsig, hb1]
    · intro b hbdef hb1 hsig
      have hble : (1 : ℤ) ≤ b := hbdef ▸ le_max_left 1 _
      have hb2 : (2 : ℤ) ≤ b := by omega
      have hbn : 2 ≤ b.toNat := by omega
      have hbnpos : 0 < b.toNat := by omega
      have hchunk : ∀ s ∈ bucketStarts signal.length b.toNat,
          (fun start =>
            let chunk := (signal.drop start).take b.toNat
            if chunk = [] then none
            else some ((chunk.map (fun sample => |sample|)).sum /
              (chunk.length : ℚ))) s =
          some ((fun start =>
            meanQ (((signal.drop start).take b.toNat).map (fun sa => |sa|))) s) := by
        intro s hs
        have hlt : s < signal.length := bucketStarts_mem_lt _ _ hbnpos s hs
        have hlen : ((signal.drop s).take b.toNat).length =
            min b.toNat (signal.length - s) := by
          simp [List.length_take, List.length_drop]
        have hpos2 : 0 < ((signal.drop s).take b.toNat).length := by
          rw [hlen]; omega
        have hne : (signal.drop s).take b.toNat ≠ [] :=
          List.ne_nil_of_length_pos hpos2
        simp only [if_neg hne, meanQ, List.length_map]
      refine ⟨(bucketStarts signal.length b.toNat).map (fun start =>
        meanQ (((signal.drop start).take b.toNat).map (fun sa => |sa|))),
        ?_, ?_, ?_⟩
      · rw [envelopeDownsample, if_neg hns, envelopeCore, if_neg hsig,
          ← hbdef, if_neg hb1]
        simp only [filterMap_eq_map_of_some _ _ _ hchunk]
      · simp only [List.length_map, bucketStarts_length]
      · intro i h
        rw [List.get_map]
        simp [bucketStarts]

/-- Witness for claim C5 at signal `[1, -2, 3]`, sample rate 4, target
rate 2 (bucket size 2). -/
theorem claim_C5_witness :
    (0 : ℤ) < 4 ∧
    max 1 (Int.fdiv 4 (max 1 2)) = (2 : ℤ) ∧
    ∃ buckets : List ℚ,
      envelopeDownsample [1, -2, 3] 4 2 = .ok (buckets, max 1 (Int.fdiv 4 2)) ∧
      buckets.length = (3 + (2:ℤ).toNat - 1) / (2:ℤ).toNat ∧
      ∀ (i : ℕ) (h : i < buckets.length),
        buckets.get ⟨i, h⟩ =
          meanQ ((([1, -2, 3].drop (i * (2:ℤ).toNat)).take (2:ℤ).toNat).map
            (fun s => |s|)) := by
  refine ⟨by norm_num, by decide, ?_⟩
  have h := ((claim_C5_theorem [1, -2, 3] 4 2).2 (by norm_num)).2 2
    (by decide) (by decide) (by simp)
  exact h

/-- Claim C10: `detect_beat_markers` returns an empty list, rather than
raising, whenever `sample_rate <= 0` or the input signal is empty. -/
theorem claim_C10_theorem (signal : List ℚ) (sampleRate targetRate : ℤ)
    (minSpacingSeconds : ℚ) (maxMarkers : ℤ)
    (h : sampleRate ≤ 0 ∨ signal = []) :
    detectBeatMarkers signal sampleRate targetRate minSpacingSeconds
      maxMarkers = [] := by
  rw [detectBeatMarkers, if_pos h]

/-- Witness for claim C10 at sample rate 0. -/
theorem claim_C10_witness :
    detectBeatMarkers [1] 0 120 (11/50) 2000 = [] :=
  claim_C10_theorem [1] 0 120 (11/50) 2000 (Or.inl (by norm_num))

/-- Claim C7: `estimate_sync_offset` equals running
`estimate_sync_candidates` with `limit = 1` on the same inputs and taking
the first candidate's `lag_seconds` (0.0 when the list is empty),
propagating the same error otherwise. -/
theorem claim_C7_theorem (env : FloatEnv) (reference candidate : List ℚ)
    (sampleRate : ℤ) (maxShiftSeconds : ℚ) :
    estimateSyncOffset env reference candidate sampleRate maxShiftSeconds =
      (estimateSyncCandidates env reference candidate sampleRate
        maxShiftSeconds 1).map
        (fun l => match l with | [] => (0 : ℚ) | c :: _ => c.lag_seconds) := by
  rw [estimateSyncOffset]
  cases h : estimateSyncCandidates env reference candidate sampleRate
      maxShiftSeconds 1 with
  | error e => rfl
  | ok l => cases l with
    | nil => rfl
    | cons c cs => rfl

/-- Claim C8: whenever a vocal-emphasis precondition fails (numpy
unavailable, fewer than 8 samples, unusable band with
`min(1800, nyquist - 1) <= 200`, or an empty band mask), the
Vocal-Emphasis Extractor returns exactly the plain Envelope Downsampler's
(envelope, rate) pair on the raw signal, raising no error. -/
theorem claim_C8_theorem (env : FloatEnv) (signal : List ℚ)
    (sampleRate targetRate : ℤ) (hsr : 0 < sampleRate)
    (h : env.npAvailable = false ∨ signal.length < 8 ∨
      highCut sampleRate ≤ 200 ∨
      bandMaskAny signal.length sampleRate = false) :
    vocalEmphasisEnvelopeDownsample env signal sampleRate targetRate =
      envelopeDownsample signal sampleRate targetRate ∧
    vocalEmphasisEnvelopeDownsample env signal sampleRate targetRate =
      .ok (envelopeCore signal sampleRate targetRate) := by
  have hns : ¬ sampleRate ≤ 0 := not_le.mpr hsr
  have henv : envelopeDownsample signal sampleRate targetRate =
      .ok (envelopeCore signal sampleRate targetRate) := by
    rw [envelopeDownsample, if_neg hns]
  refine ⟨?_, ?_⟩ <;> rw [vocalEmphasisEnvelopeDownsample]
  all_goals by_cases hnp : env.npAvailable = false
  · rw [if_pos hnp]
  · rw [if_neg hnp, if_neg hns, henv]
    congr 1
    rw [vocalCore, if_neg hnp]
    by_cases hnil : signal = []
    · rw [if_pos hnil, hnil]
      simp [envelopeCore]
    · rw [if_neg hnil]
      rcases h with h | h | h | h
      · exact absurd h hnp
      · rw [if_pos h]
      · by_cases hlen : signal.length < 8
        · rw [if_pos hlen]
        · rw [if_neg hlen, if_pos h]
      · by_cases hlen : signal.length < 8
        · rw [if_pos hlen]
        · rw [if_neg hlen]
          by_cases hhc : highCut sampleRate ≤ 200
          · rw [if_pos hhc]
          · rw [if_neg hhc, if_pos h]
  · rw [if_pos hnp, henv]
  · rw [if_neg hnp, if_neg hns]
    congr 1
    rw [vocalCore, if_neg hnp]
    by_cases hnil : signal = []
    · rw [if_pos hnil, hnil]
      simp [envelopeCore]
    · rw [if_neg hnil]
      rcases h with h | h | h | h
      · exact absurd h hnp
      · rw [if_pos h]
      · by_cases hlen : signal.length < 8
        · rw [if_pos hlen]
        · rw [if_neg hlen, if_pos h]
      · by_cases hlen : signal.length < 8
        · rw [if_pos hlen]
        · rw [if_neg hlen]
          by_cases hhc : highCut sampleRate ≤ 200
          · rw [if_pos hhc]
          · rw [if_neg hhc, if_pos h]

/-- A concrete environment (used by witnesses): an exact square root on the
values reached by the traced executions, numpy unavailable. -/
def envW : FloatEnv :=
  ⟨fun q => if q = 1 then 1 else 0, false, fun _ _ _ => ([], 0)⟩

/-- A concrete environment with numpy available. -/
def envT : FloatEnv :=
  ⟨fun q => if q = 1 then 1 else 0, true, fun _ _ _ => ([], 0)⟩

/-- Witness for claim C8 at a 3-sample signal (shorter than 8) with numpy
available. -/
theorem claim_C8_witness :
    vocalEmphasisEnvelopeDownsample envT [1, 2, 3] 5 1 =
      envelopeDownsample [1, 2, 3] 5 1 ∧
    vocalEmphasisEnvelopeDownsample envT [1, 2, 3] 5 1 =
      .ok (envelopeCore [1, 2, 3] 5 1) :=
  claim_C8_theorem envT [1, 2, 3] 5 1 (by norm_num)
    (Or.inr (Or.inl (by norm_num)))


/-! Real-valued model of `_normalize`.  The norm-1 property of claim C9 is
about the exact value of `math.sqrt`, so this leaf function is also
modelled over `ℝ` with `Real.sqrt`. -/

noncomputable def epsR : ℝ := 1 / 1000000000

noncomputable def euclNorm (l : List ℝ) : ℝ :=
  Real.sqrt ((l.map (fun x => x * x)).sum)

noncomputable def normalizeR (signal : List ℝ) : List ℝ :=
  if signal = [] then signal
  else
    let meanValue := signal.sum / (signal.length : ℝ)
    let centered := signal.map (fun sample => sample - meanValue)
    let energy := Real.sqrt ((centered.map (fun sample => sample * sample)).sum)
    if energy ≤ epsR then centered
    else centered.map (fun sample => sample / energy)

theorem sum_sq_nonneg (l : List ℝ) : 0 ≤ (l.map (fun x => x * x)).sum := by
  apply List.sum_nonneg
  intro x hx
  simp only [List.mem_map] at hx
  obtain ⟨y, _, rfl⟩ := hx
  exact mul_self_nonneg y

theorem normalizeR_eq (l : List ℝ) (hl : l ≠ []) : normalizeR l =
    if euclNorm (l.map (fun x => x - l.sum / (l.length : ℝ))) ≤ epsR then
      l.map (fun x => x - l.sum / (l.length : ℝ))
    else (l.map (fun x => x - l.sum / (l.length : ℝ))).map
      (fun x => x / euclNorm (l.map (fun y => y - l.sum / (l.length : ℝ)))) := by
  rw [normalizeR, if_neg hl]
  rfl

/-- Claim C9 (amended): the Normalizer returns an empty sequence
unchanged; a non-empty sequence is mean-centered and, when the
post-centering Euclidean norm is at most 1e-9, returned without
rescaling, otherwise divided elementwise by that norm; every constant
input normalizes to all-zeros, and every zero-mean input whose Euclidean
norm exceeds 1e-9 has normalized output of Euclidean norm 1. -/
theorem claim_C9_theorem :
    (∀ l : List ℝ, l = [] → normalizeR l = l) ∧
    (∀ l : List ℝ, l ≠ [] →
      (euclNorm (l.map (fun x => x - l.sum / (l.length : ℝ))) ≤ epsR →
        normalizeR l = l.map (fun x => x - l.sum / (l.length : ℝ))) ∧
      (epsR < euclNorm (l.map (fun x => x - l.sum / (l.length : ℝ))) →
        normalizeR l = (l.map (fun x => x - l.sum / (l.length : ℝ))).map
          (fun x => x / euclNorm (l.map (fun y => y - l.sum / (l.length : ℝ)))))) ∧
    (∀ (k : ℝ) (n : ℕ), 0 < n →
      normalizeR (List.replicate n k) = List.replicate n 0) ∧
    (∀ l : List ℝ, l ≠ [] → l.sum = 0 → epsR < euclNorm l →
      euclNorm (normalizeR l) = 1) := by
  refine ⟨?_, ?_, ?_, ?_⟩
  · intro l h
    rw [normalizeR, if_pos h]
  · intro l hl
    constructor
    · intro h
      rw [normalizeR_eq l hl, if_pos h]
    · intro h
      rw [normalizeR_eq l hl, if_neg (not_le.mpr h)]
  · intro k n hn
    have hne : List.replicate n k ≠ [] := by
      simp [List.replicate_eq_nil_iff]
      omega
    rw [normalizeR_eq _ hne]
    have hmean : (List.replicate n k).sum / ((List.replicate n k).length : ℝ) = k := by
      rw [List.sum_replicate, List.length_replicate, nsmul_eq_mul]
      field_simp
    have hcent : (List.replicate n k).map
        (fun x => x - (List.replicate n k).sum / ((List.replicate n k).length : ℝ)) =
        List.replicate n 0 := by
      rw [hmean, List.map_replicate, sub_self]
    rw [hcent]
    have hnorm0 : euclNorm (List.replicate n (0:ℝ)) = 0 := by
      simp [euclNorm, List.map_replicate, List.sum_replicate]
    rw [if_pos (by rw [hnorm0]; norm_num [epsR])]
  · intro l hl hsum hnorm
    have hcent : l.map (fun x => x - l.sum / (l.length : ℝ)) = l := by
      rw [hsum]
      simp
    rw [normalizeR_eq l hl, hcent, if_neg (not_le.mpr hnorm)]
    set S := (l.map (fun x => x * x)).sum with hS
    have hSnn : 0 ≤ S := sum_sq_nonneg l
    have he : euclNorm l = Real.sqrt S := rfl
    have hepos : 0 < euclNorm l := lt_trans (by norm_num [epsR]) hnorm
    have hSpos : 0 < S := by
      by_contra hc
      have : S = 0 := le_antisymm (not_lt.mp hc) hSnn
      rw [he, this, Real.sqrt_zero] at hepos
      exact lt_irrefl 0 hepos
    have hee : euclNorm l * euclNorm l = S := by
      rw [he]
      exact Real.mul_self_sqrt hSnn
    have hcomp : (((l.map (fun x => x / euclNorm l)).map (fun x => x * x))).sum
        = S * (1 / (euclNorm l * euclNorm l)) := by
      rw [List.map_map]
      have hfun : ((fun x => x * x) ∘ (fun x : ℝ => x / euclNorm l)) =
          fun x => (x * x) * (1 / (euclNorm l * euclNorm l)) := by
        funext x
        simp only [Function.comp]
        field_simp
      rw [hfun, List.sum_map_mul_right]
    rw [euclNorm, hcomp, hee]
    rw [mul_one_div, div_self (ne_of_gt hSpos), Real.sqrt_one]

/-- Claim C9 as stated is false: `[0.0]` is a zero-mean input whose
normalized output has Euclidean norm 0, not 1. -/
theorem claim_C9_counterexample :
    [(0:ℝ)].sum = 0 ∧ normalizeR [(0:ℝ)] = [0] ∧
    euclNorm (normalizeR [(0:ℝ)]) ≠ 1 := by
  have h1 : normalizeR [(0:ℝ)] = [0] := by
    rw [normalizeR_eq [(0:ℝ)] (by simp)]
    norm_num [euclNorm, epsR]
  refine ⟨by simp, h1, ?_⟩
  rw [h1]
  norm_num [euclNorm]

/-- Witness for claim C9 at the zero-mean input `[1.0, -1.0]`. -/
theorem claim_C9_witness :
    euclNorm (normalizeR [(1:ℝ), -1]) = 1 := by
  apply claim_C9_theorem.2.2.2 [(1:ℝ), -1] (by simp) (by norm_num)
  have h2 : euclNorm [(1:ℝ), -1] = Real.sqrt 2 := by
    norm_num [euclNorm]
  rw [h2, epsR]
  rw [show ((1:ℝ)/1000000000) = Real.sqrt ((1/1000000000)^2) from
    (Real.sqrt_sq (by norm_num)).symm]
  apply Real.sqrt_lt_sqrt (by positivity)
  norm_num

/-! Claim C6: the localized NCC scorer. -/

theorem sliceOverlap_snd_length (reference candidate : List ℚ) (lag : ℤ) :
    (sliceOverlap reference candidate lag).2.length =
    (sliceOverlap reference candidate lag).1.length := by
  simp only [sliceOverlap]
  split_ifs with h1 h2 h3 h4 h5 h6
  · rfl
  · rfl
  · simp only [List.length_take, List.length_drop]
    omega
  · rfl
  · rfl
  · simp only [List.length_take, List.length_drop]
    omega

theorem foldl_range_getD {β : Type} (g : β → ℚ → ℚ → β) :
    ∀ (r c : List ℚ) (init : β), c.length = r.length →
      (List.range r.length).foldl
        (fun acc i => g acc (r.getD i 0) (c.getD i 0)) init =
      (r.zip c).foldl (fun acc p => g acc p.1 p.2) init := by
  intro r
  induction r with
  | nil => intro c init _; simp
  | cons x xs ih =>
    intro c init h
    cases c with
    | nil => simp at h
    | cons y ys =>
      simp only [List.length_cons] at h
      rw [List.length_cons, List.range_succ_eq_map, List.foldl_cons,
        List.foldl_map]
      simp only [List.getD_cons_zero, List.getD_cons_succ]
      rw [List.zip_cons_cons, List.foldl_cons]
      exact ih ys (g init x y) (by omega)

theorem foldl_triple_sum (f1 f2 f3 : ℚ × ℚ → ℚ) :
    ∀ (l : List (ℚ × ℚ)) (a b c : ℚ),
      l.foldl (fun acc p =>
        (acc.1 + f1 p, acc.2.1 + f2 p, acc.2.2 + f3 p)) (a, b, c) =
      (a + (l.map f1).sum, b + (l.map f2).sum, c + (l.map f3).sum) := by
  intro l
  induction l with
  | nil => intro a b c; simp
  | cons p ps ih =>
    intro a b c
    rw [List.foldl_cons, ih]
    simp [add_assoc]

theorem zipWith_as_map_zip {α β γ : Type} (f : α → β → γ) :
    ∀ (l1 : List α) (l2 : List β),
      List.zipWith f l1 l2 = (l1.zip l2).map (fun p => f p.1 p.2) := by
  intro l1
  induction l1 with
  | nil => intro l2; simp
  | cons x xs ih =>
    intro l2
    cases l2 with
    | nil => simp
    | cons y ys => simp [ih]

theorem ncc_fold_eq (r c : List ℚ) (mR mC : ℚ) (hlen : c.length = r.length) :
    (List.range r.length).foldl
      (fun (acc : ℚ × ℚ × ℚ) index =>
        (acc.1 + (r.getD index 0 - mR) * (c.getD index 0 - mC),
         acc.2.1 + (r.getD index 0 - mR) * (r.getD index 0 - mR),
         acc.2.2 + (c.getD index 0 - mC) * (c.getD index 0 - mC))) (0, 0, 0) =
    ((List.zipWith (fun a b => a * b) (r.map (fun x => x - mR))
        (c.map (fun y => y - mC))).sum,
     ((r.map (fun x => x - mR)).map (fun x => x * x)).sum,
     ((c.map (fun y => y - mC)).map (fun x => x * x)).sum) := by
  rw [foldl_range_getD
    (fun (acc : ℚ × ℚ × ℚ) x y =>
      (acc.1 + (x - mR) * (y - mC),
       acc.2.1 + (x - mR) * (x - mR),
       acc.2.2 + (y - mC) * (y - mC))) r c (0, 0, 0) hlen]
  rw [foldl_triple_sum
    (fun p => (p.1 - mR) * (p.2 - mC))
    (fun p => (p.1 - mR) * (p.1 - mR))
    (fun p => (p.2 - mC) * (p.2 - mC)) (r.zip c) 0 0 0]
  have h1 : List.zipWith (fun a b => a * b) (r.map (fun x => x - mR))
      (c.map (fun y => y - mC)) =
      (r.zip c).map (fun p => (p.1 - mR) * (p.2 - mC)) := by
    rw [List.zipWith_map, zipWith_as_map_zip]
  have h2 : (r.map (fun x => x - mR)).map (fun x => x * x) =
      (r.zip c).map (fun p => (p.1 - mR) * (p.1 - mR)) := by
    have : (r.zip c).map (fun p => (p.1 - mR) * (p.1 - mR)) =
        ((r.zip c).map Prod.fst).map (fun x => (x - mR) * (x - mR)) := by
      rw [List.map_map]; rfl
    rw [this, List.map_fst_zip r c (le_of_eq hlen.symm), List.map_map]
    rfl
  have h3 : (c.map (fun y => y - mC)).map (fun x => x * x) =
      (r.zip c).map (fun p => (p.2 - mC) * (p.2 - mC)) := by
    have : (r.zip c).map (fun p => (p.2 - mC) * (p.2 - mC)) =
        ((r.zip c).map Prod.snd).map (fun y => (y - mC) * (y - mC)) := by
      rw [List.map_map]; rfl
    rw [this, List.map_snd_zip r c (le_of_eq hlen), List.map_map]
    rfl
  rw [h1, h2, h3]
  simp only [zero_add]

/-- Claim C6: for a fixed lag the localized NCC scorer returns no score
when the overlap is shorter than `max(4, sample_rate // 5)` samples;
otherwise both overlap slices have equal length and the score is
`sum(ref*cand) / sqrt(sum(ref^2) * sum(cand^2))` over the independently
mean-centered slices, except that it is exactly 0 when the computed
denominator is at most 1e-9. -/
theorem claim_C6_theorem (env : FloatEnv) (reference candidate : List ℚ)
    (lag sampleRate : ℤ) (hsr : 0 < sampleRate) :
    (((sliceOverlap reference candidate lag).1.length : ℤ) <
        max 4 (Int.fdiv sampleRate 5) →
      (localNccScore env reference candidate lag sampleRate).1 = none) ∧
    (max 4 (Int.fdiv sampleRate 5) ≤
        ((sliceOverlap reference candidate lag).1.length : ℤ) →
      (sliceOverlap reference candidate lag).2.length =
        (sliceOverlap reference candidate lag).1.length ∧
      ∀ refC candC : List ℚ,
        refC = (sliceOverlap reference candidate lag).1.map
          (fun x => x - meanQ (sliceOverlap reference candidate lag).1) →
        candC = (sliceOverlap reference candidate lag).2.map
          (fun x => x - meanQ (sliceOverlap reference candidate lag).2) →
        (localNccScore env reference candidate lag sampleRate).1 =
          some (if env.sqrtQ ((refC.map (fun x => x * x)).sum *
                  ((candC.map (fun x => x * x)).sum)) ≤ epsQ then 0
                else (List.zipWith (fun a b => a * b) refC candC).sum /
                  env.sqrtQ ((refC.map (fun x => x * x)).sum *
                    ((candC.map (fun x => x * x)).sum)))) := by
  have hlen : (sliceOverlap reference candidate lag).2.length =
      (sliceOverlap reference candidate lag).1.length :=
    sliceOverlap_snd_length reference candidate lag
  constructor
  · intro h
    rw [localNccScore, if_pos h]
  · intro h
    refine ⟨hlen, ?_⟩
    intro refC candC hrc hcc
    subst hrc
    subst hcc
    simp only [meanQ, hlen]
    rw [localNccScore, if_neg (not_lt.mpr h)]
    simp only [ncc_fold_eq (sliceOverlap reference candidate lag).1
      (sliceOverlap reference candidate lag).2
      ((sliceOverlap reference candidate lag).1.sum /
        ((sliceOverlap reference candidate lag).1.length : ℚ))
      ((sliceOverlap reference candidate lag).2.sum /
        ((sliceOverlap reference candidate lag).1.length : ℚ)) hlen]
    split_ifs with hden
    · rfl
    · rfl

/-- Witness for claim C6: self-correlation of `[1, 0, 0, 1]` at lag 0 and
sample rate 1 scores exactly 1. -/
theorem claim_C6_witness :
    (localNccScore envW [1, 0, 0, 1] [1, 0, 0, 1] 0 1).1 = some 1 := by
  have hfd : Int.fdiv 1 5 = (0 : ℤ) := by decide
  have htn : (4 : ℤ).toNat = 4 := by decide
  have happ := (claim_C6_theorem envW [1, 0, 0, 1] [1, 0, 0, 1] 0 1
    (by norm_num)).2 (by norm_num [sliceOverlap, hfd])
  have h := happ.2 [1/2, -1/2, -1/2, 1/2] [1/2, -1/2, -1/2, 1/2]
    (by norm_num [sliceOverlap, meanQ, htn]) (by norm_num [sliceOverlap, meanQ, htn])
  rw [h]
  norm_num [envW, epsQ]

/-! Claim C1 development. -/

theorem envelopeCore_nil (sampleRate targetRate : ℤ) :
    envelopeCore [] sampleRate targetRate = ([], sampleRate) := by
  simp [envelopeCore]

theorem vocalCore_nil (env : FloatEnv) (sampleRate targetRate : ℤ) :
    vocalCore env [] sampleRate targetRate = ([], sampleRate) := by
  rw [vocalCore]
  by_cases h : env.npAvailable = false
  · rw [if_pos h, envelopeCore_nil]
  · rw [if_neg h, if_pos rfl]

theorem normalizeQ_nil (env : FloatEnv) : normalizeQ env [] = [] := by
  simp [normalizeQ]

theorem sliceOverlap_nil_nil (lag : ℤ) : sliceOverlap [] [] lag = ([], []) := by
  simp [sliceOverlap]

theorem topCorrelationLags_nil (sr a b l d : ℤ) :
    topCorrelationLags [] [] sr a b l d = [] := by
  simp [topCorrelationLags, sliceOverlap_nil_nil]

theorem combineFeatureScores_nil (env : FloatEnv) (lag sr : ℤ) :
    combineFeatureScores env lag sr [] [] [] [] = none := by
  have h4 : (0 : ℤ) < max 4 (Int.fdiv sr 5) :=
    lt_of_lt_of_le (by norm_num) (le_max_left _ _)
  simp [combineFeatureScores, localNccScore, sliceOverlap_nil_nil, h4]

theorem pyRound_zero : pyRound 0 = 0 := by
  norm_num [pyRound]

/-- Claim C1 (amended): when the reference and the candidate are both
empty, `estimate_sync_candidates` returns an empty list and
`estimate_sync_offset` returns 0.0, with no error, for every positive
sample rate, every max shift and every limit.  (When exactly one signal
is empty the coarse rate consistency check can raise instead, see the
counterexample.) -/
theorem claim_C1_theorem (env : FloatEnv) (sampleRate : ℤ)
    (maxShiftSeconds : ℚ) (limit : ℤ) (hsr : 0 < sampleRate) :
    estimateSyncCandidates env [] [] sampleRate maxShiftSeconds limit =
      .ok [] ∧
    estimateSyncOffset env [] [] sampleRate maxShiftSeconds = .ok 0 := by
  have hns : ¬ sampleRate ≤ 0 := not_le.mpr hsr
  have hall : ∀ lim : ℤ,
      estimateSyncCandidates env [] [] sampleRate maxShiftSeconds lim =
        .ok [] := by
    intro lim
    have hmc : mergedCoarse env [] [] sampleRate maxShiftSeconds lim =
        .ok [{ lag_seconds := 0, score := 0, score_ratio := 0,
               overlap_samples := 0, injected := true }] := by
      simp [mergedCoarse, hns, envelopeCore_nil, vocalCore_nil, normalizeQ_nil,
        topCorrelationLags_nil, mergeCandidateLags, qIsFinite, endAnchorSeconds]
    have hcap : ¬ (max 5 (lim * 2) ≤ (1 : ℤ)) := by
      have := le_max_left (5 : ℤ) (lim * 2)
      omega
    have hcd : coarseDedup lim
        [{ lag_seconds := 0, score := 0, score_ratio := 0,
           overlap_samples := 0, injected := true }] =
        [{ lag_seconds := 0, score := 0, score_ratio := 0,
           overlap_samples := 0, injected := true }] := by
      simp [coarseDedup, sortByKeyDesc, insertDesc, greedyPick, hcap]
    have hrs : refineStage env [] [] sampleRate maxShiftSeconds
        [{ lag_seconds := 0, score := 0, score_ratio := 0,
           overlap_samples := 0, injected := true }] = .ok [] := by
      rw [refineStage]
      simp only [envelopeCore_nil, vocalCore_nil, normalizeQ_nil, ne_eq,
        not_true_eq_false, if_neg, ite_false, if_false]
      rw [List.foldl_cons, List.foldl_nil]
      simp [topCorrelationLags_nil, combineFeatureScores_nil, pyRound_zero]
    simp [estimateSyncCandidates, hmc, hcd, hrs, Except.instMonad,
      Except.bind, Except.pure, bind, pure]
  refine ⟨hall limit, ?_⟩
  rw [estimateSyncOffset, hall 1]

/-- Witness for claim C1 at sample rate 1. -/
theorem claim_C1_witness :
    estimateSyncCandidates envW [] [] 1 0 4 = .ok [] ∧
    estimateSyncOffset envW [] [] 1 0 = .ok 0 :=
  claim_C1_theorem envW 1 0 4 (by norm_num)

/-- Claim C1 as stated is false: with an empty reference, a one-sample
candidate and sample rate 48, the empty signal keeps the raw rate 48
while the non-empty one is reduced to 24, so both entry points raise the
coarse-rate mismatch error instead of returning empty/zero results. -/
theorem claim_C1_counterexample :
    (0 : ℤ) < 48 ∧
    estimateSyncCandidates envW [] [1] 48 1 4 =
      .error "Coarse sample rates must match" ∧
    estimateSyncOffset envW [] [1] 48 1 =
      .error "Coarse sample rates must match" := by
  have hfd : Int.fdiv 48 24 = (2 : ℤ) := by decide
  have hfd2 : Int.fdiv 48 2 = (24 : ℤ) := by decide
  have htn : (2 : ℤ).toNat = 2 := by decide
  have h2 : envelopeCore [(1 : ℚ)] 48 24 = ([1], 24) := by
    norm_num [envelopeCore, bucketStarts, hfd, hfd2, htn, List.range_succ,
      List.filterMap_cons]
  have hmc : ∀ lim : ℤ, mergedCoarse envW [] [1] 48 1 lim =
      .error "Coarse sample rates must match" := by
    intro lim
    rw [mergedCoarse, if_neg (by norm_num)]
    simp [envelopeCore_nil, h2]
  have hcand : ∀ lim : ℤ, estimateSyncCandidates envW [] [1] 48 1 lim =
      .error "Coarse sample rates must match" := by
    intro lim
    simp [estimateSyncCandidates, hmc, Except.instMonad, Except.bind,
      Except.pure, bind, pure]
  refine ⟨by norm_num, hcand 4, ?_⟩
  rw [estimateSyncOffset, hcand 1]

/-! Claim C2 development. -/

theorem mergeCandidateLags_single (base : List Candidate) (a : ℚ) :
    mergeCandidateLags base [a] =
      if base.any (fun item => decide (|item.lag_seconds - a| < 7/20)) then base
      else base ++ [{ lag_seconds := a, score := 0, score_ratio := 0,
                      overlap_samples := 0, injected := true }] := by
  simp [mergeCandidateLags, qIsFinite]

theorem topCorrelationLags_not_injected (nref ncand : List ℚ)
    (sr a b l d : ℤ) :
    ∀ c ∈ topCorrelationLags nref ncand sr a b l d, c.injected = false := by
  intro c hc
  rw [topCorrelationLags] at hc
  split_ifs at hc
  · simp at hc
  · simp only [List.mem_map] at hc
    obtain ⟨t, _, rfl⟩ := hc
    rfl

/-- Claim C2 (amended): the coarse merge always computes an anchor lag -
`(len(candidate) - len(reference)) / sample_rate` when the candidate is
strictly longer, `0.0` otherwise - and appends a candidate marked
`injected` carrying exactly that lag if and only if every
correlation-found (non-injected) candidate of the merged pool is at
least 0.35 s away from the anchor. -/
theorem claim_C2_theorem (env : FloatEnv) (reference candidate : List ℚ)
    (sampleRate : ℤ) (maxShiftSeconds : ℚ) (limit : ℤ)
    (pool : List Candidate)
    (hok : mergedCoarse env reference candidate sampleRate maxShiftSeconds
      limit = .ok pool) :
    (endAnchorSeconds reference candidate sampleRate =
      if reference.length < candidate.length then
        ((candidate.length : ℚ) - (reference.length : ℚ)) / (sampleRate : ℚ)
      else 0) ∧
    (∀ c ∈ pool, c.injected = true →
      c.lag_seconds = endAnchorSeconds reference candidate sampleRate) ∧
    ((∃ c ∈ pool, c.injected = true) ↔
      ∀ c ∈ pool, c.injected = false →
        7/20 ≤ |c.lag_seconds - endAnchorSeconds reference candidate sampleRate|) := by
  refine ⟨rfl, ?_⟩
  simp only [mergedCoarse] at hok
  by_cases h1 : sampleRate ≤ 0
  · rw [if_pos h1] at hok
    exact Except.noConfusion hok
  rw [if_neg h1] at hok
  by_cases h2 : (envelopeCore reference sampleRate 24).2 =
      (envelopeCore candidate sampleRate 24).2
  swap
  · rw [if_pos h2] at hok
    exact Except.noConfusion hok
  rw [if_neg (not_not_intro h2)] at hok
  by_cases h3 : (vocalCore env reference sampleRate 24).2 =
      (vocalCore env candidate sampleRate 24).2
  swap
  · rw [if_pos h3] at hok
    exact Except.noConfusion hok
  rw [if_neg (not_not_intro h3)] at hok
  rw [Except.ok.injEq] at hok
  rw [mergeCandidateLags_single] at hok
  set base := (topCorrelationLags
      (normalizeQ env (envelopeCore reference sampleRate 24).1)
      (normalizeQ env (envelopeCore candidate sampleRate 24).1)
      (envelopeCore reference sampleRate 24).2
      (-pyInt (maxShiftSeconds * ((envelopeCore reference sampleRate 24).2 : ℚ)))
      (pyInt (maxShiftSeconds * ((envelopeCore reference sampleRate 24).2 : ℚ)))
      (max 3 (limit + 2))
      (max 1 (pyInt (3/4 * ((envelopeCore reference sampleRate 24).2 : ℚ)))) ++
    topCorrelationLags
      (normalizeQ env (vocalCore env reference sampleRate 24).1)
      (normalizeQ env (vocalCore env candidate sampleRate 24).1)
      (vocalCore env reference sampleRate 24).2
      (-pyInt (maxShiftSeconds * ((envelopeCore reference sampleRate 24).2 : ℚ)))
      (pyInt (maxShiftSeconds * ((envelopeCore reference sampleRate 24).2 : ℚ)))
      (max 3 (limit + 2))
      (max 1 (pyInt (3/4 * ((envelopeCore reference sampleRate 24).2 : ℚ))))) with hbase
  have hbi : ∀ c ∈ base, c.injected = false := by
    intro c hc
    rw [hbase] at hc
    rcases List.mem_append.mp hc with h | h
    · exact topCorrelationLags_not_injected _ _ _ _ _ _ _ c h
    · exact topCorrelationLags_not_injected _ _ _ _ _ _ _ c h
  clear hbase
  set anchor := endAnchorSeconds reference candidate sampleRate with hanchor
  by_cases hany : base.any
      (fun item => decide (|item.lag_seconds - anchor| < 7/20))
  · rw [if_pos hany] at hok
    subst hok
    obtain ⟨b, hb, hblt⟩ := List.any_eq_true.mp hany
    constructor
    · intro c hc hci
      exact absurd (hbi c hc) (by rw [hci]; simp)
    · constructor
      · rintro ⟨c, hc, hci⟩
        exact absurd (hbi c hc) (by rw [hci]; simp)
      · intro hfar
        have := hfar b hb (hbi b hb)
        rw [decide_eq_true_eq] at hblt
        linarith
  · rw [if_neg hany] at hok
    subst hok
    have hnotclose : ∀ b ∈ base, ¬ (|b.lag_seconds - anchor| < 7/20) := by
      intro b hb hlt
      exact hany (List.any_eq_true.mpr ⟨b, hb, decide_eq_true hlt⟩)
    constructor
    · intro c hc hci
      rcases List.mem_append.mp hc with h | h
      · exact absurd (hbi c h) (by rw [hci]; simp)
      · rw [List.mem_singleton] at h
        rw [h]
    · constructor
      · intro _
        intro c hc hci
        rcases List.mem_append.mp hc with h | h
        · exact not_lt.mp (hnotclose c h)
        · rw [List.mem_singleton] at h
          rw [h] at hci
          simp at hci
      · intro _
        refine ⟨{ lag_seconds := anchor, score := 0, score_ratio := 0,
                  overlap_samples := 0, injected := true }, ?_, rfl⟩
        simp

/-- Claim C2 as stated is false: with two identical one-sample signals
(the candidate is not longer than the reference) the coarse pools are
empty and the merge still creates an injected candidate, at lag 0.0. -/
theorem claim_C2_counterexample :
    ¬ ([(1 : ℚ)].length < [(1 : ℚ)].length) ∧
    mergedCoarse envW [1] [1] 1 0 4 =
      .ok [{ lag_seconds := 0, score := 0, score_ratio := 0,
             overlap_samples := 0, injected := true }] := by
  have hfd24 : Int.fdiv 1 24 = (0 : ℤ) := by decide
  have hfd5 : Int.fdiv 1 5 = (0 : ℤ) := by decide
  refine ⟨by norm_num, ?_⟩
  rw [mergedCoarse, if_neg (by norm_num)]
  have henv : envelopeCore [(1 : ℚ)] 1 24 = ([1], 1) := by
    norm_num [envelopeCore, hfd24]
  have hvoc : vocalCore envW [(1 : ℚ)] 1 24 = ([1], 1) := by
    simp [vocalCore, envW, henv]
  have hnorm : normalizeQ envW [(1 : ℚ)] = [0] := by
    norm_num [normalizeQ, meanQ, envW, epsQ]
  have htop : ∀ l d : ℤ, topCorrelationLags [0] [0] 1 (-pyInt (0 * (1:ℚ)))
      (pyInt (0 * (1:ℚ))) l d = [] := by
    intro l d
    have hp0 : pyInt (0 * (1:ℚ)) = 0 := by norm_num [pyInt]
    rw [hp0]
    norm_num [topCorrelationLags, intRange, sliceOverlap, hfd5,
      List.range_succ, List.filterMap_cons]
  simp only [henv, hvoc, hnorm, Int.cast_one]
  rw [if_neg (by norm_num), if_neg (by norm_num)]
  simp only [htop]
  simp [mergeCandidateLags_single, endAnchorSeconds]

/-- Witness for claim C2: with a one-sample reference and a two-sample
candidate at rate 1, the merged coarse pool's injected candidate carries
the end-anchor lag 1.0 s. -/
theorem claim_C2_witness :
    ({ lag_seconds := (1 : ℚ), score := 0, score_ratio := 0,
       overlap_samples := 0, injected := true } : Candidate).lag_seconds =
      endAnchorSeconds [1] [1, 1] 1 := by
  have hfd24 : Int.fdiv 1 24 = (0 : ℤ) := by decide
  have hfd5 : Int.fdiv 1 5 = (0 : ℤ) := by decide
  have henv : envelopeCore [(1 : ℚ)] 1 24 = ([1], 1) := by
    norm_num [envelopeCore, hfd24]
  have henv2 : envelopeCore [(1 : ℚ), 1] 1 24 = ([1, 1], 1) := by
    norm_num [envelopeCore, hfd24]
  have hvoc : vocalCore envW [(1 : ℚ)] 1 24 = ([1], 1) := by
    simp [vocalCore, envW, henv]
  have hvoc2 : vocalCore envW [(1 : ℚ), 1] 1 24 = ([1, 1], 1) := by
    simp [vocalCore, envW, henv2]
  have hnorm : normalizeQ envW [(1 : ℚ)] = [0] := by
    norm_num [normalizeQ, meanQ, envW, epsQ]
  have hnorm2 : normalizeQ envW [(1 : ℚ), 1] = [0, 0] := by
    rw [normalizeQ, if_neg (by simp)]
    norm_num [meanQ, envW, epsQ]
  have htn0 : (0 : ℤ).toNat = 0 := by decide
  have htn1 : (1 : ℤ).toNat = 1 := by decide
  have hslice : sliceOverlap [0] [0, 0] 0 = ([0], [0]) := by
    rw [sliceOverlap, if_pos le_rfl]
    norm_num [htn0, htn1]
  have htop : ∀ l d : ℤ, topCorrelationLags [0] [0, 0] 1 (-pyInt (0 * (1:ℚ)))
      (pyInt (0 * (1:ℚ))) l d = [] := by
    intro l d
    have hp0 : pyInt (0 * (1:ℚ)) = 0 := by norm_num [pyInt]
    rw [hp0]
    norm_num [topCorrelationLags, intRange, hslice, hfd5,
      List.range_succ, List.filterMap_cons]
  have hok : mergedCoarse envW [1] [1, 1] 1 0 4 =
      .ok [{ lag_seconds := 1, score := 0, score_ratio := 0,
             overlap_samples := 0, injected := true }] := by
    rw [mergedCoarse, if_neg (by norm_num)]
    simp only [henv, henv2, hvoc, hvoc2, hnorm, hnorm2, Int.cast_one]
    rw [if_neg (by norm_num), if_neg (by norm_num)]
    simp only [htop]
    norm_num [mergeCandidateLags_single, endAnchorSeconds]
  exact (claim_C2_theorem envW [1] [1, 1] 1 0 4 _ hok).2.1 _ (by simp) rfl

/-! Claim C4 development. -/

theorem beatScan_invariant (flux localFloor : List ℚ) (envRate msp maxM : ℤ)
    (thFloor : ℚ) (hrate : 1 ≤ envRate) (hmsp : 1 ≤ msp) :
    ∀ (idxs : List ℕ) (markers : List ℚ) (lastPick : ℤ),
      List.Pairwise (· < ·) idxs →
      (∀ j ∈ idxs, lastPick < (j : ℤ)) →
      List.Chain' (fun a b => a + (msp : ℚ) / (envRate : ℚ) ≤ b) markers →
      (∀ x ∈ markers, 0 ≤ x) →
      (markers = [] ∨
        markers.getLast? = some ((lastPick : ℚ) / (envRate : ℚ)) ∧ 0 ≤ lastPick) →
      ((markers.length : ℤ) < maxM ∨ markers = []) →
      List.Chain' (fun a b => a + (msp : ℚ) / (envRate : ℚ) ≤ b)
        (beatScan flux localFloor envRate msp maxM thFloor idxs
          (markers, lastPick)).1 ∧
      (∀ x ∈ (beatScan flux localFloor envRate msp maxM thFloor idxs
          (markers, lastPick)).1, 0 ≤ x) ∧
      (((beatScan flux localFloor envRate msp maxM thFloor idxs
          (markers, lastPick)).1.length : ℤ) ≤ max 1 maxM) := by
  have hrq : (0 : ℚ) < (envRate : ℚ) := by
    exact_mod_cast lt_of_lt_of_le one_pos hrate
  intro idxs
  induction idxs with
  | nil =>
    intro markers lastPick _ _ hchain hnn _ hlen
    rw [beatScan]
    refine ⟨hchain, hnn, ?_⟩
    dsimp only
    have h1 := le_max_left (1 : ℤ) maxM
    have h2 := le_max_right (1 : ℤ) maxM
    rcases hlen with h | h
    · omega
    · rw [h]
      simp only [List.length_nil, Nat.cast_zero]
      omega
  | cons i rest ih =>
    intro markers lastPick hpw hgt hchain hnn hlink hlen
    have hpwr : List.Pairwise (· < ·) rest := hpw.tail
    have hirest : ∀ j ∈ rest, (i : ℤ) < (j : ℤ) := by
      intro j hj
      exact_mod_cast List.rel_of_pairwise_cons hpw hj
    have hgtr : ∀ j ∈ rest, lastPick < (j : ℤ) :=
      fun j hj => hgt j (List.mem_cons_of_mem i hj)
    have hilast : lastPick < (i : ℤ) := hgt i (List.mem_cons_self i rest)
    have hcast : ((i : ℤ) : ℚ) = (i : ℚ) := by push_cast; rfl
    rw [beatScan]
    by_cases hc1 : flux.getD i 0 <
        max thFloor (localFloor.getD i 0 * 27/20)
    · rw [if_pos hc1]
      exact ih markers lastPick hpwr hgtr hchain hnn hlink hlen
    rw [if_neg hc1]
    by_cases hc2 : flux.getD i 0 < flux.getD (i - 1) 0 ∨
        flux.getD i 0 < flux.getD (i + 1) 0
    · rw [if_pos hc2]
      exact ih markers lastPick hpwr hgtr hchain hnn hlink hlen
    rw [if_neg hc2]
    by_cases hc3 : (i : ℤ) - lastPick < msp
    · rw [if_pos hc3]
      by_cases hc4 : markers ≠ [] ∧ flux.getD lastPick.toNat 0 < flux.getD i 0
      · rw [if_pos hc4]
        obtain ⟨hne, _⟩ := hc4
        rcases hlink with h | ⟨hlast, _⟩
        · exact absurd h hne
        have hlastval : markers.getLast hne = (lastPick : ℚ) / (envRate : ℚ) := by
          have h0 := List.getLast?_eq_getLast markers hne
          rw [h0] at hlast
          exact Option.some_injective _ hlast
        have hsplit := List.dropLast_append_getLast hne
        have hchain2 : List.Chain' (fun a b => a + (msp : ℚ) / (envRate : ℚ) ≤ b)
            (markers.dropLast ++ [markers.getLast hne]) := by
          rw [hsplit]
          exact hchain
        rw [List.chain'_append] at hchain2
        obtain ⟨hcd, _, hrel⟩ := hchain2
        have hchain3 : List.Chain' (fun a b => a + (msp : ℚ) / (envRate : ℚ) ≤ b)
            (markers.dropLast ++ [(i : ℚ) / (envRate : ℚ)]) := by
          rw [List.chain'_append]
          refine ⟨hcd, List.chain'_singleton _, ?_⟩
          intro x hx y hy
          simp only [List.head?_cons, Option.mem_def, Option.some.injEq] at hy
          subst hy
          have h1 := hrel x hx (markers.getLast hne) (by simp)
          rw [hlastval] at h1
          have hltq : (lastPick : ℚ) < (i : ℚ) := by exact_mod_cast hilast
          have h2 : (lastPick : ℚ) / (envRate : ℚ) ≤ (i : ℚ) / (envRate : ℚ) :=
            (div_le_div_right hrq).mpr hltq.le
          exact le_trans h1 h2
        have hnn2 : ∀ x ∈ markers.dropLast ++ [(i : ℚ) / (envRate : ℚ)],
            0 ≤ x := by
          intro x hx
          rcases List.mem_append.mp hx with h | h
          · exact hnn x (List.dropLast_subset _ h)
          · rw [List.mem_singleton] at h
            subst h
            positivity
        have hlink2 : markers.dropLast ++ [(i : ℚ) / (envRate : ℚ)] = [] ∨
            (markers.dropLast ++ [(i : ℚ) / (envRate : ℚ)]).getLast? =
              some (((i : ℤ) : ℚ) / (envRate : ℚ)) ∧ 0 ≤ (i : ℤ) := by
          right
          refine ⟨?_, Int.ofNat_nonneg i⟩
          rw [List.getLast?_concat, hcast]
        have hlen2 : (((markers.dropLast ++
            [(i : ℚ) / (envRate : ℚ)]).length : ℤ) < maxM ∨
            markers.dropLast ++ [(i : ℚ) / (envRate : ℚ)] = []) := by
          left
          have hlenEq : (markers.dropLast ++
              [(i : ℚ) / (envRate : ℚ)]).length = markers.length := by
            rw [List.length_append, List.length_dropLast, List.length_singleton]
            have := List.length_pos.mpr hne
            omega
          rw [hlenEq]
          rcases hlen with h | h
          · exact h
          · exact absurd h hne
        exact ih _ i hpwr hirest hchain3 hnn2 hlink2 hlen2
      · rw [if_neg hc4]
        exact ih markers lastPick hpwr hgtr hchain hnn hlink hlen
    · rw [if_neg hc3]
      have hspace : lastPick + msp ≤ (i : ℤ) := by omega
      have hchain2 : List.Chain' (fun a b => a + (msp : ℚ) / (envRate : ℚ) ≤ b)
          (markers ++ [(i : ℚ) / (envRate : ℚ)]) := by
        rw [List.chain'_append]
        refine ⟨hchain, List.chain'_singleton _, ?_⟩
        intro x hx y hy
        simp only [List.head?_cons, Option.mem_def, Option.some.injEq] at hy
        subst hy
        rcases hlink with h | ⟨hlast, _⟩
        · subst h
          simp at hx
        · rw [Option.mem_def, hlast, Option.some.injEq] at hx
          subst hx
          rw [div_add_div_same]
          apply (div_le_div_right hrq).mpr
          exact_mod_cast hspace
      have hnn2 : ∀ x ∈ markers ++ [(i : ℚ) / (envRate : ℚ)], 0 ≤ x := by
        intro x hx
        rcases List.mem_append.mp hx with h | h
        · exact hnn x h
        · rw [List.mem_singleton] at h
          subst h
          positivity
      by_cases hc5 : maxM ≤ ((markers ++ [(i : ℚ) / (envRate : ℚ)]).length : ℤ)
      · rw [if_pos hc5]
        refine ⟨hchain2, hnn2, ?_⟩
        simp only [List.length_append, List.length_singleton]
        have h1 := le_max_left (1 : ℤ) maxM
        have h2 := le_max_right (1 : ℤ) maxM
        rcases hlen with h | h
        · push_cast
          omega
        · subst h
          simp only [List.length_nil]
          push_cast
          omega
      · rw [if_neg hc5]
        apply ih _ i hpwr hirest hchain2 hnn2 ?_ ?_
        · right
          refine ⟨?_, Int.ofNat_nonneg i⟩
          rw [List.getLast?_concat, hcast]
        · left
          omega

theorem envelopeCore_rate_ge_one (signal : List ℚ) (sampleRate targetRate : ℤ)
    (h : 0 < sampleRate) : 1 ≤ (envelopeCore signal sampleRate targetRate).2 := by
  simp only [envelopeCore]
  split_ifs
  · dsimp only
    omega
  · dsimp only
    omega
  · exact le_max_left _ _

/-- Claim C4 (amended): for every signal and sample_rate > 0, the marker
list of `detect_beat_markers` is strictly increasing, non-negative, has
consecutive markers at least
`max(1, int(min_spacing_seconds * envelope_rate)) / envelope_rate`
seconds apart, and has length at most `max(1, max_markers)`. -/
theorem claim_C4_theorem (signal : List ℚ) (sampleRate targetRate : ℤ)
    (minSpacingSeconds : ℚ) (maxMarkers : ℤ) (hsr : 0 < sampleRate) :
    List.Chain' (fun a b =>
        a + ((max 1 (pyInt (minSpacingSeconds *
          ((envelopeCore signal sampleRate targetRate).2 : ℚ))) : ℤ) : ℚ) /
          ((envelopeCore signal sampleRate targetRate).2 : ℚ) ≤ b)
      (detectBeatMarkers signal sampleRate targetRate minSpacingSeconds
        maxMarkers) ∧
    List.Pairwise (· < ·)
      (detectBeatMarkers signal sampleRate targetRate minSpacingSeconds
        maxMarkers) ∧
    (∀ x ∈ detectBeatMarkers signal sampleRate targetRate minSpacingSeconds
        maxMarkers, 0 ≤ x) ∧
    ((detectBeatMarkers signal sampleRate targetRate minSpacingSeconds
        maxMarkers).length : ℤ) ≤ max 1 maxMarkers := by
  have hrate : 1 ≤ (envelopeCore signal sampleRate targetRate).2 :=
    envelopeCore_rate_ge_one signal sampleRate targetRate hsr
  set rate := (envelopeCore signal sampleRate targetRate).2 with hrdef
  set msp := max 1 (pyInt (minSpacingSeconds * (rate : ℚ))) with hmspdef
  have hmsp : 1 ≤ msp := le_max_left _ _
  have hdpos : 0 < (msp : ℚ) / (rate : ℚ) := by
    apply div_pos
    · exact_mod_cast lt_of_lt_of_le one_pos hmsp
    · exact_mod_cast lt_of_lt_of_le one_pos hrate
  have hmain : List.Chain' (fun a b => a + (msp : ℚ) / (rate : ℚ) ≤ b)
      (detectBeatMarkers signal sampleRate targetRate minSpacingSeconds
        maxMarkers) ∧
      (∀ x ∈ detectBeatMarkers signal sampleRate targetRate minSpacingSeconds
        maxMarkers, 0 ≤ x) ∧
      ((detectBeatMarkers signal sampleRate targetRate minSpacingSeconds
        maxMarkers).length : ℤ) ≤ max 1 maxMarkers := by
    rw [detectBeatMarkers]
    by_cases h0 : sampleRate ≤ 0 ∨ signal = []
    · rw [if_pos h0]
      refine ⟨List.chain'_nil, by simp, ?_⟩
      have := le_max_left (1 : ℤ) maxMarkers
      simp only [List.length_nil, Nat.cast_zero]
      omega
    rw [if_neg h0]
    simp only [← hrdef]
    by_cases h2 : (envelopeCore signal sampleRate targetRate).1 = [] ∨ rate ≤ 0
    · rw [if_pos h2]
      refine ⟨List.chain'_nil, by simp, ?_⟩
      have := le_max_left (1 : ℤ) maxMarkers
      simp only [List.length_nil, Nat.cast_zero]
      omega
    rw [if_neg h2]
    set envelope := (envelopeCore signal sampleRate targetRate).1 with hedef
    set flux := (List.range envelope.length).map (fun index =>
      max 0 ((movingAverage envelope
          (max 1 (pyInt (1/20 * (rate : ℚ))))).getD index 0 -
        (movingAverage envelope
          (max 1 (pyInt (7/20 * (rate : ℚ))))).getD index 0)) with hfdef
    by_cases h3 : flux = []
    · rw [if_pos h3]
      refine ⟨List.chain'_nil, by simp, ?_⟩
      have := le_max_left (1 : ℤ) maxMarkers
      simp only [List.length_nil, Nat.cast_zero]
      omega
    rw [if_neg h3]
    simp only [← hmspdef]
    apply beatScan_invariant _ _ rate msp maxMarkers _ hrate hmsp
      (interiorIndices flux.length) [] (-msp)
    · rw [interiorIndices]
      rw [List.pairwise_map]
      exact (List.pairwise_lt_range _).imp (by omega)
    · intro j _
      have : (0 : ℤ) ≤ (j : ℤ) := Int.ofNat_nonneg j
      omega
    · exact List.chain'_nil
    · simp
    · exact Or.inl rfl
    · exact Or.inr rfl
  refine ⟨hmain.1, ?_, hmain.2.1, hmain.2.2⟩
  rw [← List.chain'_iff_pairwise]
  exact hmain.1.imp
    (fun a b hab => lt_of_lt_of_le (lt_add_of_pos_right a hdpos) hab)

set_option maxHeartbeats 2000000 in
/-- Claim C4 as stated is false on two counts: with `max_markers = 0` a
silent 3-sample signal still yields one marker (the break fires only
after an append), and with `min_spacing_seconds = 1.5` at envelope rate 1
two consecutive markers end up only 1 second apart (the spacing is
enforced in truncated envelope samples, not seconds). -/
theorem claim_C4_counterexample :
    detectBeatMarkers [0, 0, 0] 1 120 (11/50) 0 = [1] ∧
    ¬ ((1 : ℤ) ≤ 0) ∧
    detectBeatMarkers [0, 0, 0, 0, 0, 0, 0, 0] 2 1 (3/2) 2000 = [1, 2] ∧
    ((2 : ℚ) - 1 < 3/2) := by
  have hfd1 : Int.fdiv 1 120 = (0 : ℤ) := by decide
  have hfd2 : Int.fdiv 2 1 = (2 : ℤ) := by decide
  have hfd3 : Int.fdiv 2 2 = (1 : ℤ) := by decide
  have htn2 : (2 : ℤ).toNat = 2 := by decide
  refine ⟨?_, by norm_num, ?_, by norm_num⟩
  · have henv : envelopeCore [(0 : ℚ), 0, 0] 1 120 = ([0, 0, 0], 1) := by
      norm_num [envelopeCore, hfd1]
    norm_num [detectBeatMarkers, henv, movingAverage, pyInt, qListMax,
      interiorIndices, List.range_succ, beatScan]
    all_goals simp
  · have henv : envelopeCore [(0 : ℚ), 0, 0, 0, 0, 0, 0, 0] 2 1 =
        ([0, 0, 0, 0], 1) := by
      norm_num [envelopeCore, hfd2, hfd3, htn2, bucketStarts, List.range_succ,
        List.filterMap_cons]
      all_goals simp
    norm_num [detectBeatMarkers, henv, movingAverage, pyInt, qListMax,
      interiorIndices, List.range_succ, beatScan]
    all_goals simp

/-- Witness for claim C4 on a 3-sample signal at rate 1. -/
theorem claim_C4_witness :
    List.Chain' (fun a b =>
        a + ((max 1 (pyInt ((11/50) *
          ((envelopeCore [0, 0, 0] 1 120).2 : ℚ))) : ℤ) : ℚ) /
          ((envelopeCore [0, 0, 0] 1 120).2 : ℚ) ≤ b)
      (detectBeatMarkers [0, 0, 0] 1 120 (11/50) 2000) ∧
    ((detectBeatMarkers [0, 0, 0] 1 120 (11/50) 2000).length : ℤ) ≤
      max 1 2000 :=
  ⟨(claim_C4_theorem [0, 0, 0] 1 120 (11/50) 2000 (by norm_num)).1,
   (claim_C4_theorem [0, 0, 0] 1 120 (11/50) 2000 (by norm_num)).2.2.2⟩

/-! Claim C3 development: sorting and greedy-pick lemmas. -/

theorem insertDesc_perm {α : Type} (key : α → ℚ) (x : α) :
    ∀ l : List α, (insertDesc key x l).Perm (x :: l) := by
  intro l
  induction l with
  | nil => rfl
  | cons y ys ih =>
    rw [insertDesc]
    split_ifs
    · rfl
    · exact (ih.cons y).trans (List.Perm.swap x y ys)

theorem sortByKeyDesc_perm {α : Type} (key : α → ℚ) :
    ∀ l : List α, (sortByKeyDesc key l).Perm l := by
  intro l
  induction l with
  | nil => rfl
  | cons x xs ih =>
    rw [sortByKeyDesc]
    exact (insertDesc_perm key x _).trans (ih.cons x)

theorem insertDesc_pairwise {α : Type} (key : α → ℚ) (x : α) :
    ∀ l : List α, List.Pairwise (fun a b => key b ≤ key a) l →
      List.Pairwise (fun a b => key b ≤ key a) (insertDesc key x l) := by
  intro l
  induction l with
  | nil =>
    intro _
    rw [insertDesc]
    exact List.pairwise_singleton _ _
  | cons y ys ih =>
    intro hp
    rw [insertDesc]
    rcases List.pairwise_cons.mp hp with ⟨hy, hys⟩
    split_ifs with hxy
    · refine List.pairwise_cons.mpr ⟨?_, hp⟩
      intro z hz
      rcases List.mem_cons.mp hz with h | h
      · rw [h]; exact hxy
      · exact le_trans (hy z h) hxy
    · refine List.pairwise_cons.mpr ⟨?_, ih hys⟩
      intro z hz
      have := (insertDesc_perm key x ys).mem_iff.mp hz
      rcases List.mem_cons.mp this with h | h
      · rw [h]; exact le_of_not_le hxy
      · exact hy z h

theorem sortByKeyDesc_pairwise {α : Type} (key : α → ℚ) :
    ∀ l : List α, List.Pairwise (fun a b => key b ≤ key a)
      (sortByKeyDesc key l) := by
  intro l
  induction l with
  | nil => simp [sortByKeyDesc]
  | cons x xs ih =>
    rw [sortByKeyDesc]
    exact insertDesc_pairwise key x _ ih

theorem greedyPick_decomp {α : Type} (close : α → α → Bool) (cap : ℤ) :
    ∀ (l acc : List α), ∃ t : List α,
      greedyPick close cap acc l = acc ++ t ∧ t.Sublist l := by
  intro l
  induction l with
  | nil => intro acc; exact ⟨[], by simp [greedyPick]⟩
  | cons x rest ih =>
    intro acc
    simp only [greedyPick]
    split_ifs with h1 h2
    · obtain ⟨t, ht, hs⟩ := ih acc
      exact ⟨t, ht, hs.trans (List.sublist_cons_self x rest)⟩
    · exact ⟨[x], rfl, by simp⟩
    · obtain ⟨t, ht, hs⟩ := ih (acc ++ [x])
      refine ⟨x :: t, by simpa using ht, List.cons_sublist_cons.mpr hs⟩

theorem greedyPick_pairwise {α : Type} (close : α → α → Bool) (cap : ℤ) :
    ∀ (l acc : List α),
      List.Pairwise (fun a b => close b a = false) acc →
      List.Pairwise (fun a b => close b a = false)
        (greedyPick close cap acc l) := by
  intro l
  induction l with
  | nil => intro acc h; rw [greedyPick]; exact h
  | cons x rest ih =>
    intro acc hacc
    have happend : acc.any (close x) = false →
        List.Pairwise (fun a b => close b a = false) (acc ++ [x]) := by
      intro hfalse
      rw [List.pairwise_append]
      refine ⟨hacc, List.pairwise_singleton _ _, ?_⟩
      intro a ha b hb
      rw [List.mem_singleton] at hb
      subst hb
      exact Bool.eq_false_iff.mpr ((List.any_eq_false.mp hfalse) a ha)
    simp only [greedyPick]
    split_ifs with h1 h2
    · exact ih acc hacc
    · exact happend (Bool.eq_false_iff.mpr h1)
    · exact ih _ (happend (Bool.eq_false_iff.mpr h1))

theorem greedyPick_ne_nil {α : Type} (close : α → α → Bool) (cap : ℤ)
    (x : α) (l : List α) : greedyPick close cap [] (x :: l) ≠ [] := by
  simp only [greedyPick]
  split_ifs with h1 h2
  · simp at h1
  · simp
  · obtain ⟨t, ht, _⟩ := greedyPick_decomp close cap l ([] ++ [x])
    rw [ht]
    simp

theorem foldl_max_of_le (t : List Candidate) :
    ∀ s : ℚ, (∀ y ∈ t, y.score ≤ s) →
      t.foldl (fun m it => max m it.score) s = s := by
  induction t with
  | nil => intro s _; rfl
  | cons y ys ih =>
    intro s hs
    rw [List.foldl_cons, max_eq_left (hs y (List.mem_cons_self y ys))]
    exact ih s (fun z hz => hs z (List.mem_cons_of_mem y hz))

theorem maxScore_head (x : Candidate) (t : List Candidate)
    (h : ∀ y ∈ t, y.score ≤ x.score) : maxScore (x :: t) = x.score := by
  rw [maxScore]
  exact foldl_max_of_le t x.score h

/-- The kept candidate pool of the final ranking stage, before the
`score_ratio` assignment (audio_sync.py lines 552-584). -/
def finalRankingPool (anchor : ℚ) (limit : ℤ) (refined : List Candidate) :
    List Candidate :=
  let sortedRefined := sortByKeyDesc (fun item => item.score) refined
  let deduped := greedyPick
    (fun item existing => decide (|item.lag_seconds - existing.lag_seconds| < 7/20))
    limit [] sortedRefined
  if 0 < anchor then
    match pickEndAnchorChoice anchor sortedRefined with
    | none => deduped
    | some choice =>
      if deduped.any (fun item =>
          decide (|item.lag_seconds - choice.lag_seconds| < 7/20)) then deduped
      else
        sortByKeyDesc (fun item => item.score)
          (if limit ≤ (deduped.length : ℤ) ∧ deduped ≠ [] then
             deduped.dropLast ++ [choice]
           else deduped ++ [choice])
  else deduped

theorem finalRanking_eq_pool (anchor : ℚ) (limit : ℤ)
    (refined : List Candidate) :
    finalRanking anchor limit refined =
      (finalRankingPool anchor limit refined).map (fun item =>
        { item with score_ratio :=
            if |maxScore (finalRankingPool anchor limit refined)| ≤ epsQ then 0
            else item.score / maxScore (finalRankingPool anchor limit refined) }) :=
  rfl

theorem finalRankingPool_facts (anchor : ℚ) (limit : ℤ)
    (refined : List Candidate) (hne : refined ≠ []) :
    finalRankingPool anchor limit refined ≠ [] ∧
    List.Pairwise (fun a b => b.score ≤ a.score)
      (finalRankingPool anchor limit refined) ∧
    List.Pairwise (fun a b => 7/20 ≤ |a.lag_seconds - b.lag_seconds|)
      (finalRankingPool anchor limit refined) := by
  have hFsymm : Symmetric (fun a b : Candidate =>
      7/20 ≤ |a.lag_seconds - b.lag_seconds|) := by
    intro a b h
    rwa [abs_sub_comm]
  set key := fun item : Candidate => item.score with hkey
  set srt := sortByKeyDesc key refined with hsrt
  have hsrtperm : srt.Perm refined := sortByKeyDesc_perm key refined
  have hsrtne : srt ≠ [] := by
    intro h
    rw [h] at hsrtperm
    exact hne hsrtperm.symm.eq_nil
  have hsrtpw : List.Pairwise (fun a b => key b ≤ key a) srt :=
    sortByKeyDesc_pairwise key refined
  set close35 := fun item existing : Candidate =>
    decide (|item.lag_seconds - existing.lag_seconds| < 7/20) with hclose
  set dd := greedyPick close35 limit [] srt with hdd
  obtain ⟨s0, ss, hcons⟩ := List.exists_cons_of_ne_nil hsrtne
  have hddne : dd ≠ [] := by
    rw [hdd, hcons]
    exact greedyPick_ne_nil close35 limit s0 ss
  have hddpw : List.Pairwise (fun a b => key b ≤ key a) dd := by
    obtain ⟨t, ht, hs⟩ := greedyPick_decomp close35 limit srt []
    rw [hdd, ht, List.nil_append]
    exact hsrtpw.sublist hs
  have hddfar : List.Pairwise
      (fun a b => 7/20 ≤ |a.lag_seconds - b.lag_seconds|) dd := by
    have h1 := greedyPick_pairwise close35 limit srt [] (List.Pairwise.nil)
    rw [← hdd] at h1
    refine h1.imp ?_
    intro a b hab
    rw [hclose] at hab
    simp only [decide_eq_false_iff_not, not_lt] at hab
    rwa [abs_sub_comm]
  have hchfar : ∀ choice : Candidate,
      dd.any (fun item =>
        decide (|item.lag_seconds - choice.lag_seconds| < 7/20)) = false →
      ∀ a ∈ dd, 7/20 ≤ |a.lag_seconds - choice.lag_seconds| := by
    intro choice hf a ha
    have := List.any_eq_false.mp hf a ha
    simp only [decide_eq_true_eq] at this
    exact not_lt.mp this
  rw [finalRankingPool]
  simp only [← hkey, ← hsrt, ← hclose, ← hdd]
  by_cases ha : 0 < anchor
  swap
  · rw [if_neg ha]
    exact ⟨hddne, hddpw, hddfar⟩
  rw [if_pos ha]
  cases hch : pickEndAnchorChoice anchor srt with
  | none => exact ⟨hddne, hddpw, hddfar⟩
  | some choice =>
    dsimp only
    by_cases hany : dd.any (fun item =>
        decide (|item.lag_seconds - choice.lag_seconds| < 7/20)) = true
    · rw [if_pos hany]
      exact ⟨hddne, hddpw, hddfar⟩
    rw [if_neg hany]
    have hanyf := Bool.eq_false_iff.mpr hany
    set base2 := (if limit ≤ (dd.length : ℤ) ∧ dd ≠ [] then
        dd.dropLast ++ [choice]
      else dd ++ [choice]) with hbase2
    have hbase2ne : base2 ≠ [] := by
      rw [hbase2]
      split_ifs <;> simp
    have hbase2far : List.Pairwise
        (fun a b => 7/20 ≤ |a.lag_seconds - b.lag_seconds|) base2 := by
      rw [hbase2]
      have hsub : ∀ pre : List Candidate, pre.Sublist dd →
          List.Pairwise (fun a b => 7/20 ≤ |a.lag_seconds - b.lag_seconds|)
            (pre ++ [choice]) := by
        intro pre hpre
        rw [List.pairwise_append]
        refine ⟨hddfar.sublist hpre, List.pairwise_singleton _ _, ?_⟩
        intro a haa b hb
        rw [List.mem_singleton] at hb
        rw [hb]
        exact hchfar choice hanyf a (hpre.subset haa)
      split_ifs
      · exact hsub _ (List.dropLast_sublist dd)
      · exact hsub _ (List.Sublist.refl dd)
    have hperm : (sortByKeyDesc key base2).Perm base2 :=
      sortByKeyDesc_perm key base2
    refine ⟨?_, sortByKeyDesc_pairwise key base2, ?_⟩
    · intro h
      rw [h] at hperm
      exact hbase2ne hperm.symm.eq_nil
    · exact (hperm.pairwise_iff (fun {a b} h => hFsymm h)).mpr hbase2far

theorem rankedMap_facts (p : List Candidate)
    (ppw : List.Pairwise (fun a b => b.score ≤ a.score) p)
    (pfar : List.Pairwise (fun a b => 7/20 ≤ |a.lag_seconds - b.lag_seconds|) p)
    (hne : p.map (fun item : Candidate =>
      { item with score_ratio :=
          if |maxScore p| ≤ epsQ then 0 else item.score / maxScore p }) ≠ []) :
    List.Pairwise (fun a b => b.score ≤ a.score)
      (p.map (fun item : Candidate =>
        { item with score_ratio :=
            if |maxScore p| ≤ epsQ then 0 else item.score / maxScore p })) ∧
    List.Pairwise (fun a b => 7/20 ≤ |a.lag_seconds - b.lag_seconds|)
      (p.map (fun item : Candidate =>
        { item with score_ratio :=
            if |maxScore p| ≤ epsQ then 0 else item.score / maxScore p })) ∧
    (|((p.map (fun item : Candidate =>
        { item with score_ratio :=
            if |maxScore p| ≤ epsQ then 0
            else item.score / maxScore p })).head hne).score| ≤ epsQ →
      ∀ c ∈ p.map (fun item : Candidate =>
        { item with score_ratio :=
            if |maxScore p| ≤ epsQ then 0 else item.score / maxScore p }),
        c.score_ratio = 0) ∧
    (epsQ < |((p.map (fun item : Candidate =>
        { item with score_ratio :=
            if |maxScore p| ≤ epsQ then 0
            else item.score / maxScore p })).head hne).score| →
      ((p.map (fun item : Candidate =>
        { item with score_ratio :=
            if |maxScore p| ≤ epsQ then 0
            else item.score / maxScore p })).head hne).score_ratio = 1) := by
  set f := (fun item : Candidate =>
    { item with score_ratio :=
        if |maxScore p| ≤ epsQ then 0
        else item.score / maxScore p }) with hf
  have pne : p ≠ [] := by
    intro h
    rw [h] at hne
    exact hne rfl
  obtain ⟨hd, tl, hcons⟩ := List.exists_cons_of_ne_nil pne
  have hbest : maxScore p = hd.score := by
    rw [hcons]
    exact maxScore_head hd tl (List.pairwise_cons.mp (hcons ▸ ppw)).1
  have hepspos : (0 : ℚ) < epsQ := by norm_num [epsQ]
  have hhq : (p.map f).head? = some (f hd) := by
    rw [List.head?_map, hcons]
    rfl
  have hhead : (p.map f).head hne = f hd := by
    have h2 := List.head?_eq_head hne
    rw [hhq] at h2
    exact (Option.some_injective _ h2).symm
  refine ⟨List.pairwise_map.mpr ppw, List.pairwise_map.mpr pfar, ?_, ?_⟩
  · intro hsmall c hc
    have hsc : |hd.score| ≤ epsQ := by
      rw [hhead] at hsmall
      exact hsmall
    rw [List.mem_map] at hc
    obtain ⟨it, _, hit⟩ := hc
    rw [← hit]
    show (if |maxScore p| ≤ epsQ then (0 : ℚ) else it.score / maxScore p) = 0
    rw [hbest, if_pos hsc]
  · intro hbig
    have hbg : epsQ < |hd.score| := by
      rw [hhead] at hbig
      exact hbig
    rw [hhead]
    show (if |maxScore p| ≤ epsQ then (0 : ℚ) else hd.score / maxScore p) = 1
    rw [hbest, if_neg (not_le.mpr hbg)]
    have hnz : hd.score ≠ 0 := by
      intro h0
      rw [h0, abs_zero] at hbg
      exact absurd hbg (not_lt.mpr hepspos.le)
    exact div_self hnz

/-- Claim C3: every successful `estimateSyncCandidates` call returning a
non-empty list yields a list sorted by descending combined score, with no two
candidates whose `lag_seconds` lie within 0.35 seconds of each other; the
head's `score_ratio` is 1 when the best score's magnitude exceeds 1e-9, and
every candidate's `score_ratio` is 0 when it does not. -/
theorem claim_C3_theorem (env : FloatEnv) (reference candidate : List ℚ)
    (sampleRate : ℤ) (maxShiftSeconds : ℚ) (limit : ℤ) (l : List Candidate)
    (hok : estimateSyncCandidates env reference candidate sampleRate
      maxShiftSeconds limit = .ok l) (hne : l ≠ []) :
    List.Pairwise (fun a b => b.score ≤ a.score) l ∧
    List.Pairwise (fun a b => 7/20 ≤ |a.lag_seconds - b.lag_seconds|) l ∧
    (|(l.head hne).score| ≤ epsQ → ∀ c ∈ l, c.score_ratio = 0) ∧
    (epsQ < |(l.head hne).score| → (l.head hne).score_ratio = 1) := by
  cases hmc : mergedCoarse env reference candidate sampleRate maxShiftSeconds
      limit with
  | error e =>
    simp only [estimateSyncCandidates, hmc, Except.instMonad, Except.bind,
      bind] at hok
    exact Except.noConfusion hok
  | ok m =>
    cases hrs : refineStage env reference candidate sampleRate maxShiftSeconds
        (coarseDedup limit m) with
    | error e =>
      simp only [estimateSyncCandidates, hmc, hrs, Except.instMonad,
        Except.bind, bind] at hok
      exact Except.noConfusion hok
    | ok r =>
      simp only [estimateSyncCandidates, hmc, hrs, Except.instMonad,
        Except.bind, bind, pure, Except.pure] at hok
      by_cases hr : r = []
      · rw [if_pos hr] at hok
        rw [Except.ok.injEq] at hok
        exact absurd hok.symm hne
      · rw [if_neg hr] at hok
        rw [Except.ok.injEq] at hok
        have hl : l = finalRanking
            (endAnchorSeconds reference candidate sampleRate) limit r :=
          hok.symm
        subst hl
        obtain ⟨_, ppw, pfar⟩ := finalRankingPool_facts
          (endAnchorSeconds reference candidate sampleRate) limit r hr
        exact rankedMap_facts
          (finalRankingPool (endAnchorSeconds reference candidate sampleRate)
            limit r) ppw pfar hne

theorem greedyPick_single {α : Type} (close : α → α → Bool) (cap : ℤ)
    (t : α) : greedyPick close cap [] [t] = [t] := by
  simp only [greedyPick]
  split_ifs with h1 h2
  · simp at h1
  · rfl
  · simp [greedyPick]

theorem syncConcrete_ok :
    estimateSyncCandidates envW [1, 0, 0, 1] [1, 0, 0, 1] 1 0 4 =
      .ok [{ lag_seconds := 0, score := 1, score_ratio := 1,
             overlap_samples := 4, amp_score := 1, vocal_score := 1,
             coarse_lag_seconds := 0, injected := false }] := by
  have hfd24 : Int.fdiv 1 24 = (0 : ℤ) := by decide
  have hfd90 : Int.fdiv 1 90 = (0 : ℤ) := by decide
  have hfd5 : Int.fdiv 1 5 = (0 : ℤ) := by decide
  have htn4 : (4 : ℤ).toNat = 4 := by decide
  have henv24 : envelopeCore [(1 : ℚ), 0, 0, 1] 1 24 = ([1, 0, 0, 1], 1) := by
    norm_num [envelopeCore, hfd24]
  have henv90 : envelopeCore [(1 : ℚ), 0, 0, 1] 1 90 = ([1, 0, 0, 1], 1) := by
    norm_num [envelopeCore, hfd90]
  have hvoc24 : vocalCore envW [(1 : ℚ), 0, 0, 1] 1 24 = ([1, 0, 0, 1], 1) := by
    simp [vocalCore, envW, henv24]
  have hvoc90 : vocalCore envW [(1 : ℚ), 0, 0, 1] 1 90 = ([1, 0, 0, 1], 1) := by
    simp [vocalCore, envW, henv90]
  have hnorm : normalizeQ envW [(1 : ℚ), 0, 0, 1] =
      [1/2, -(1/2), -(1/2), 1/2] := by
    rw [normalizeQ, if_neg (by simp)]
    norm_num [meanQ, envW, epsQ]
  have hslice : sliceOverlap [(1 : ℚ)/2, -(1/2), -(1/2), 1/2]
      [(1 : ℚ)/2, -(1/2), -(1/2), 1/2] 0 =
      ([1/2, -(1/2), -(1/2), 1/2], [1/2, -(1/2), -(1/2), 1/2]) := by
    rw [sliceOverlap, if_pos le_rfl]
    norm_num [htn4]
  have hsliceRaw : sliceOverlap [(1 : ℚ), 0, 0, 1] [(1 : ℚ), 0, 0, 1] 0 =
      ([1, 0, 0, 1], [1, 0, 0, 1]) := by
    rw [sliceOverlap, if_pos le_rfl]
    norm_num [htn4]
  have hp0 : pyInt (0 * (1 : ℚ)) = 0 := by norm_num [pyInt]
  have hr0 : pyRound (0 * (1 : ℚ)) = 0 := by norm_num [pyRound]
  have htop : ∀ lim dist : ℤ, topCorrelationLags
      [(1 : ℚ)/2, -(1/2), -(1/2), 1/2] [(1 : ℚ)/2, -(1/2), -(1/2), 1/2]
      1 0 0 lim dist =
      [{ lag_seconds := 0, score := 1, score_ratio := 1,
         overlap_samples := 4 }] := by
    intro lim dist
    rw [topCorrelationLags]
    norm_num [intRange, hslice, hfd5, List.range_succ, List.filterMap_cons,
      sortByKeyDesc, insertDesc, greedyPick_single, maxSnd, epsQ]
    all_goals simp
  have hcomb : combineFeatureScores envW 0 1 [(1 : ℚ), 0, 0, 1]
      [(1 : ℚ), 0, 0, 1] [(1 : ℚ), 0, 0, 1] [(1 : ℚ), 0, 0, 1] =
      some { lag_seconds := 0, score := 1, amp_score := 1, vocal_score := 1,
             overlap_samples := 4 } := by
    rw [combineFeatureScores]
    norm_num [localNccScore, hsliceRaw, hfd5, List.range_succ, envW, epsQ]
  have hmc : mergedCoarse envW [1, 0, 0, 1] [1, 0, 0, 1] 1 0 4 =
      .ok [{ lag_seconds := 0, score := 1, score_ratio := 1,
             overlap_samples := 4 },
           { lag_seconds := 0, score := 1, score_ratio := 1,
             overlap_samples := 4 }] := by
    rw [mergedCoarse, if_neg (by norm_num)]
    simp only [henv24, hvoc24, hnorm, Int.cast_one, hp0, neg_zero]
    rw [if_neg (by norm_num), if_neg (by norm_num)]
    simp only [htop]
    norm_num [mergeCandidateLags, qIsFinite, endAnchorSeconds]
  have hcd : coarseDedup 4
      [{ lag_seconds := 0, score := 1, score_ratio := 1,
         overlap_samples := 4 },
       { lag_seconds := 0, score := 1, score_ratio := 1,
         overlap_samples := 4 }] =
      [{ lag_seconds := 0, score := 1, score_ratio := 1,
         overlap_samples := 4 }] := by
    rw [coarseDedup]
    norm_num [sortByKeyDesc, insertDesc, greedyPick]
  have hrs : refineStage envW [1, 0, 0, 1] [1, 0, 0, 1] 1 0
      [{ lag_seconds := 0, score := 1, score_ratio := 1,
         overlap_samples := 4 }] =
      .ok [{ lag_seconds := 0, score := 1, overlap_samples := 4,
             amp_score := 1, vocal_score := 1, coarse_lag_seconds := 0,
             injected := false }] := by
    rw [refineStage]
    simp only [henv90, hvoc90, hnorm, Int.cast_one]
    rw [if_neg (by norm_num), if_neg (by norm_num)]
    simp only [List.foldl_cons, List.foldl_nil]
    norm_num [hp0, hr0, pyInt]
    have hpr : pyRound (0 : ℚ) = 0 := by norm_num [pyRound]
    rw [hpr]
    have hb1 : (0 : ℤ) ⊔ (0 - 1) = 0 := by decide
    have hb2 : (0 : ℤ) ⊓ (0 + 1) = 0 := by decide
    rw [hb1, hb2]
    simp only [htop]
    norm_num [hcomb, List.filterMap_cons, hpr]
  have hfr : finalRanking (endAnchorSeconds [1, 0, 0, 1] [1, 0, 0, 1] 1) 4
      [{ lag_seconds := 0, score := 1, overlap_samples := 4,
         amp_score := 1, vocal_score := 1, coarse_lag_seconds := 0,
         injected := false }] =
      [{ lag_seconds := 0, score := 1, score_ratio := 1,
         overlap_samples := 4, amp_score := 1, vocal_score := 1,
         coarse_lag_seconds := 0, injected := false }] := by
    rw [finalRanking]
    norm_num [endAnchorSeconds, sortByKeyDesc, insertDesc, greedyPick_single,
      maxScore, epsQ]
  simp only [estimateSyncCandidates, hmc, hcd, hrs, Except.instMonad,
    Except.bind, bind, pure, Except.pure]
  rw [if_neg (by simp)]
  rw [hfr]

theorem claim_C3_witness :
    List.Pairwise (fun a b : Candidate => b.score ≤ a.score)
      [{ lag_seconds := 0, score := 1, score_ratio := 1,
         overlap_samples := 4, amp_score := 1, vocal_score := 1,
         coarse_lag_seconds := 0, injected := false }] ∧
    ({ lag_seconds := 0, score := 1, score_ratio := 1,
       overlap_samples := 4, amp_score := 1, vocal_score := 1,
       coarse_lag_seconds := 0, injected := false } : Candidate).score_ratio
      = 1 := by
  have h := claim_C3_theorem envW [1, 0, 0, 1] [1, 0, 0, 1] 1 0 4 _
    syncConcrete_ok (by simp)
  exact ⟨h.1, h.2.2.2 (by norm_num [epsQ])⟩
